import Mathlib

/-!
Verification of the sample-reconciliation and time-series packing engine of
the watcheye collector (`collector/tasks.py`, schema model in
`collector/models.py`).

Python dictionaries are modelled as insertion-ordered association lists with
unique keys; `dict.__setitem__` replaces in place, `dict.pop` removes, and
equality of dictionaries is extensional equality of lookups.  Python sample
values (`bool`, `int`, `float`, `str`) are modelled by the inductive `Value`,
with floats as exact rationals (the engine never performs float arithmetic on
sample values, so binary rounding is irrelevant here; only the decimal
formatting of floats, which no reconciliation path observes, is abstracted).
-/

namespace Collector
/-- A Python sample value: `t_sample_value = Union[bool, int, float, str]`. -/
inductive Value where
  | b : Bool → Value
  | i : Int → Value
  | f : Rat → Value
  | s : String → Value
deriving DecidableEq

/-- Declared parameter types: `Parameter.FLOAT/INTEGER/STRING/BOOLEAN`
(`collector/models.py`). -/
inductive PType where
  | float
  | integer
  | string
  | boolean
deriving DecidableEq

/-- `Group.SCALAR = False` (`collector/models.py`). -/
def SCALAR : Bool := false

/-- `Group.TABULAR = True` (`collector/models.py`). -/
def TABULAR : Bool := true

/-- Decimal digits of a natural number, least significant first; the first
argument is recursion fuel (`fuel ≥ n` suffices). -/
def natDigitsAux : Nat → Nat → List Nat
  | 0, _ => []
  | fuel + 1, n => if n = 0 then [] else n % 10 :: natDigitsAux fuel (n / 10)

/-- Decimal digits of a natural number, least significant first. -/
def natDigits (n : Nat) : List Nat := natDigitsAux n n

/-- Decimal representation of a natural number, as produced by Python's
`str`/`format` on a non-negative `int`. -/
def natRepr (n : Nat) : String :=
  if n = 0 then "0" else String.mk (((natDigits n).map Nat.digitChar).reverse)

/-- Decimal representation of a Python `int`. -/
def intRepr (n : Int) : String :=
  if n < 0 then "-" ++ natRepr n.natAbs else natRepr n.natAbs

/-- Parses a non-empty all-digit character list as a natural number. -/
def parseDigits : List Char → Option Nat
  | [] => none
  | cs =>
    if cs.all Char.isDigit then
      some (cs.foldl (fun a c => 10 * a + (c.toNat - 48)) 0)
    else none

/-- Python `int(str)`: optional sign followed by decimal digits.  (Python
additionally strips whitespace and allows underscore separators; those forms
are not modelled and no reconciliation path in this development relies on
them.)  Returns `none` where Python raises `ValueError`. -/
def pyParseInt (s : String) : Option Int :=
  match s.data with
  | '-' :: rest => (parseDigits rest).map (fun n => -(n : Int))
  | '+' :: rest => (parseDigits rest).map (fun n => (n : Int))
  | cs => (parseDigits cs).map (fun n => (n : Int))

/-- Decimal core of Python `float(str)`: optional sign, digits, optional
fractional part.  (Exponent and special forms are not modelled; no
reconciliation path in this development relies on them.)  Returns `none`
where Python raises `ValueError`. -/
def pyParseFloat (s : String) : Option Rat :=
  let body : List Char → Option Rat := fun cs =>
    match cs.span (fun c => c != '.') with
    | (intPart, []) => (parseDigits intPart).map (fun n => (n : Rat))
    | (intPart, _ :: fracPart) =>
      if intPart.isEmpty && fracPart.isEmpty then none
      else if (intPart.all Char.isDigit) && (fracPart.all Char.isDigit) then
        let a : Nat := intPart.foldl (fun a c => 10 * a + (c.toNat - 48)) 0
        let b : Nat := fracPart.foldl (fun a c => 10 * a + (c.toNat - 48)) 0
        some (mkRat ((a * 10 ^ fracPart.length + b : Nat) : Int)
               (10 ^ fracPart.length))
      else none
  match s.data with
  | '-' :: rest => (body rest).map (fun q => -q)
  | '+' :: rest => body rest
  | cs => body cs

/-- `type(value).__name__` for a sample value. -/
def typeName : Value → String
  | .b _ => "bool"
  | .i _ => "int"
  | .f _ => "float"
  | .s _ => "str"

/-- `target_type.__name__` for the caster selected by `casters[parameter.type]`
(`collector/tasks.py`). -/
def casterName : PType → String
  | .float => "float"
  | .integer => "int"
  | .string => "str"
  | .boolean => "bool"

/-- Python truncation of a rational toward zero, `int(float)`. -/
def ratTrunc (q : Rat) : Int := Int.tdiv q.num q.den

/-- Python `bool(value)` (truthiness); never raises on sample values. -/
def pyBool : Value → Bool
  | .b x => x
  | .i n => decide (n ≠ 0)
  | .f q => decide (q ≠ 0)
  | .s s => decide (s ≠ "")

/-- Python `int(value)`; `none` where Python raises `ValueError`. -/
def pyInt : Value → Option Int
  | .b x => some (if x then 1 else 0)
  | .i n => some n
  | .f q => some (ratTrunc q)
  | .s s => pyParseInt s

/-- Python `float(value)`; `none` where Python raises `ValueError`. -/
def pyFloat : Value → Option Rat
  | .b x => some (if x then 1 else 0)
  | .i n => some (n : Rat)
  | .f q => some q
  | .s s => pyParseFloat s

/-- Python `str(value)`.  The decimal formatting of floats is abstracted by
an injective rendering; no reconciliation path observes it. -/
def pyStr : Value → String
  | .b x => if x then "True" else "False"
  | .i n => intRepr n
  | .f q => intRepr q.num ++ "/" ++ natRepr q.den
  | .s s => s

/-- `casters[parameter.type](value)` (`collector/tasks.py`): cast a raw value
to the parameter's declared type; `none` models the `(ValueError, TypeError)`
failures caught by `values_for_instance`. -/
def cast_value (t : PType) (v : Value) : Option Value :=
  match t with
  | .boolean => some (.b (pyBool v))
  | .integer => (pyInt v).map .i
  | .float => (pyFloat v).map .f
  | .string => some (.s (pyStr v))

/-- Lookup in a Python dictionary modelled as an association list. -/
def dlookup {α : Type} (m : List (String × α)) (k : String) : Option α :=
  (m.find? (fun q => q.1 == k)).map (fun q => q.2)

/-- `key in dict`. -/
def dcontains {α : Type} (m : List (String × α)) (k : String) : Bool :=
  (dlookup m k).isSome

/-- `dict[key] = value`: replaces the first matching entry in place (keys
are unique in any Python dictionary state, and every dictionary in this
model is built through `dinsert`), keeping its position as Python
dictionaries do, otherwise appends. -/
def dinsert {α : Type} : List (String × α) → String → α → List (String × α)
  | [], k, v => [(k, v)]
  | q :: m, k, v => if q.1 = k then (k, v) :: m else q :: dinsert m k v

/-- `dict.pop(key)`'s removal effect. -/
def dremove {α : Type} (m : List (String × α)) (k : String) :
    List (String × α) :=
  m.filter (fun q => !(q.1 == k))

/-- `dict.update(pairs)`. -/
def updateDict {α : Type} (m : List (String × α)) (ps : List (String × α)) :
    List (String × α) :=
  ps.foldl (fun acc q => dinsert acc q.1 q.2) m

/-- A dictionary built from a sequence of key/value pairs (dict comprehension
or `dict(...)`): later pairs overwrite earlier ones. -/
def buildDict {α : Type} (ps : List (String × α)) : List (String × α) :=
  updateDict [] ps

/-- A `Parameter` row (`collector/models.py`): `name` is a primary key,
`type` the declared sample type, `indexing` the tag flag, `oid` the
structural suffix (`PositiveIntegerField`, default 0, no uniqueness
constraint). -/
structure Parameter where
  name : String
  type : PType
  indexing : Bool
  oid : Nat
deriving DecidableEq

/-- A `Group` row (`collector/models.py`) together with its prefetched
`parameters` relation: `name` is a primary key, `type` is
`SCALAR`/`TABULAR`, `oid` the optional structural identifier (empty string
when blank). -/
structure GroupData where
  name : String
  type : Bool
  oid : String
  parameters : List Parameter
deriving DecidableEq

/-- An `Instance` row (`collector/models.py`) with its prefetched `group`:
`oid` is the ordinal discriminator, `name` the (possibly empty) instance
name; `(group, host, oid)` is unique together. -/
structure InstanceData where
  group : GroupData
  oid : Nat
  name : String
deriving DecidableEq

/-- A `Host` row with its prefetched `tag_values` (pairs `(tag_id, value)`)
and `instances` relations, as fetched by `add_samples`
(`collector/tasks.py`). -/
structure HostData where
  name : String
  tag_values : List (String × String)
  instances : List InstanceData
deriving DecidableEq

/-- `compose_oid` (`collector/tasks.py`): `'{group.oid}.{parameter.oid}.{instance.oid}'`
when the group has a structural identifier, else
`'{group.name}:{parameter.name}:{instance.name}'`. -/
def compose_oid (group : GroupData) (parameter : Parameter)
    (inst : InstanceData) : String :=
  if group.oid ≠ "" then
    group.oid ++ "." ++ natRepr parameter.oid ++ "." ++ natRepr inst.oid
  else
    group.name ++ ":" ++ parameter.name ++ ":" ++ inst.name

/-- `SNMP_MAX_PARAMETERS_IN_QUERY` (`collector/tasks.py`). -/
def SNMP_MAX_PARAMETERS_IN_QUERY : Nat := 32

/-- Slicing loop of `chunks` (`collector/tasks.py`); the first argument is
recursion fuel (`fuel ≥ l.length` suffices, mirroring the bounded `range`
loop of the source). -/
def chunksFuel {α : Type} : Nat → List α → List (List α)
  | _, [] => []
  | 0, l => [l]
  | fuel + 1, l =>
    l.take SNMP_MAX_PARAMETERS_IN_QUERY ::
      chunksFuel fuel (l.drop SNMP_MAX_PARAMETERS_IN_QUERY)

/-- `chunks` (`collector/tasks.py`): slices a vector into chunks not longer
than `SNMP_MAX_PARAMETERS_IN_QUERY`. -/
def chunks {α : Type} (vector : List α) : List (List α) :=
  chunksFuel vector.length vector

/-- A structural record of each `logger` call issued by the engine, carrying
exactly the data interpolated into the logged message. -/
inductive LogEntry where
  | castError (value : Value) (targetType : String) (actualType : String)
  | missingSamples (rows : List (String × String))
  | unknownSamples (rows : List (String × String))
  | hostNotFound (host : String)
  | notIndexedFields (leftover : List String) (host : String)
deriving DecidableEq

/-- The mutable context threaded through a `ResultPacker` run: the draining
identifier-to-value `mapping` and the log emitted so far. -/
structure PackState where
  mapping : List (String × Value)
  log : List LogEntry
deriving DecidableEq

/-- Loop body of `ResultPacker.values_for_instance` (`collector/tasks.py`),
iterating the given parameters of `inst`'s group: an identifier present in
the mapping whose parameter matches the requested `indexing` flag is popped
and cast; cast failures are logged (with value, declared and actual type
names) and yield nothing. -/
def values_for_params (inst : InstanceData) (indexing : Bool) :
    List Parameter → PackState → List (String × Value) × PackState
  | [], st => ([], st)
  | p :: ps, st =>
    let oid := compose_oid inst.group p inst
    match dlookup st.mapping oid with
    | some value =>
      if p.indexing = indexing then
        let st₁ : PackState := { st with mapping := dremove st.mapping oid }
        match cast_value p.type value with
        | some w =>
          let (rest, st₂) := values_for_params inst indexing ps st₁
          ((p.name, w) :: rest, st₂)
        | none =>
          values_for_params inst indexing ps
            { st₁ with
              log := st₁.log ++
                [LogEntry.castError value (casterName p.type) (typeName value)] }
      else values_for_params inst indexing ps st
    | none => values_for_params inst indexing ps st

/-- `ResultPacker.values_for_instance` (`collector/tasks.py`). -/
def values_for_instance (inst : InstanceData) (indexing : Bool)
    (st : PackState) : List (String × Value) × PackState :=
  values_for_params inst indexing inst.group.parameters st

/-- Instance loop of `ResultPacker.global_tags` (`collector/tasks.py`):
`tags.update(values_for_instance(instance, True))` for every scalar
instance. -/
def global_tags_fold : List InstanceData → List (String × Value) →
    PackState → List (String × Value) × PackState
  | [], t, st => (t, st)
  | inst :: is_, t, st =>
    if inst.group.type = SCALAR then
      let (ps, st') := values_for_instance inst true st
      global_tags_fold is_ (updateDict t ps) st'
    else global_tags_fold is_ t st

/-- `ResultPacker.global_tags` (`collector/tasks.py`), uncached: host tag
values, then the implicit `host` tag, then the indexing values of scalar
instances. -/
def global_tags_compute (host : HostData) (st : PackState) :
    List (String × Value) × PackState :=
  let base := buildDict (host.tag_values.map (fun tv => (tv.1, Value.s tv.2)))
  global_tags_fold host.instances (dinsert base "host" (Value.s host.name)) st

/-- The memoization of `ResultPacker.global_tags` through `_global_tags`:
computed once per packer, then reused. -/
def get_global_tags (host : HostData) (cache : Option (List (String × Value)))
    (st : PackState) :
    List (String × Value) × Option (List (String × Value)) × PackState :=
  match cache with
  | some t => (t, some t, st)
  | none =>
    let (t, st') := global_tags_compute host st
    (t, some t, st')

/-- `ResultPacker.tags` (`collector/tasks.py`): a copy of the global tags,
enriched for tabular instances with the instance's indexing values and an
`instance` tag. -/
def inst_tags (host : HostData) (inst : InstanceData)
    (cache : Option (List (String × Value))) (st : PackState) :
    List (String × Value) × Option (List (String × Value)) × PackState :=
  let (g, cache', st') := get_global_tags host cache st
  if inst.group.type = TABULAR then
    let (ps, st'') := values_for_instance inst true st'
    (dinsert (updateDict g ps) "instance" (Value.s inst.name), cache', st'')
  else (g, cache', st')

/-- `ResultPacker.fields` (`collector/tasks.py`):
`dict(values_for_instance(instance, False))`. -/
def inst_fields (inst : InstanceData) (st : PackState) :
    List (String × Value) × PackState :=
  let (ps, st') := values_for_instance inst false st
  (buildDict ps, st')

/-- One InfluxDB point as assembled by `add_samples` (`collector/tasks.py`). -/
structure Point where
  measurement : String
  time : Int
  fields : List (String × Value)
  tags : List (String × Value)
deriving DecidableEq

/-- `ResultPacker.snmp`'s mapping (`collector/tasks.py`): the dict
comprehension over all chunks' samples. -/
def snmp_mapping (samples : List (List (String × Value))) :
    List (String × Value) :=
  buildDict samples.flatten

/-- The nested `samples_tree` dictionary of `ResultPacker.http`
(`collector/tasks.py`): parameter name to (instance name to value). -/
abbrev Tree := List (String × List (String × Value))

/-- `samples_tree[parameter][instance] = value`, creating the inner
dictionary on `KeyError` (outer keys are unique in any Python dictionary
state, so updating the first matching entry is exact). -/
def tinsert : Tree → String → String → Value → Tree
  | [], p, i, v => [(p, [(i, v)])]
  | q :: t, p, i, v =>
    if q.1 = p then (p, dinsert q.2 i v) :: t else q :: tinsert t p i v

/-- Grouping loop of `ResultPacker.http` (`collector/tasks.py`): samples
grouped by parameter name, then instance name, a later duplicate instance
for the same parameter overwriting the earlier one. -/
def samples_tree (samples : List (String × String × Value)) : Tree :=
  samples.foldl (fun t s => tinsert t s.1 s.2.1 s.2.2) []

/-- `samples_tree[p][i]`, `none` on `KeyError` at either level. -/
def tlookup (t : Tree) (p i : String) : Option Value :=
  match t.find? (fun q => q.1 == p) with
  | some q => dlookup q.2 i
  | none => none

/-- Removal effect of `samples_tree[p].pop(i)` on the nested dictionary
(outer keys are unique in any Python dictionary state, so updating the
first matching entry is exact). -/
def tremove : Tree → String → String → Tree
  | [], _, _ => []
  | q :: t, p, i =>
    if q.1 = p then (q.1, dremove q.2 i) :: t else q :: tremove t p i

/-- `samples_tree[p].pop(i)`: the looked-up value and the tree with the
matched entry removed (unchanged on `KeyError`). -/
def tpop (t : Tree) (p i : String) : Option Value × Tree :=
  match tlookup t p i with
  | some v => (some v, tremove t p i)
  | none => (none, t)

/-- The `(parameter, instance)` pairs remaining in the tree, in dictionary
order: the `unknown` comprehension of `ResultPacker.http`. -/
def treePairs (t : Tree) : List (String × String) :=
  t.flatMap (fun q => q.2.map (fun r => (q.1, r.1)))

/-- Parameter loop of `ResultPacker.http` for one instance: pop the matching
raw value, recording the pair as missing on `KeyError` and otherwise storing
it in the identifier mapping. -/
def http_consume_params (inst : InstanceData) :
    List Parameter →
    Tree × List (String × Value) × List (String × String) →
    Tree × List (String × Value) × List (String × String)
  | [], acc => acc
  | p :: ps, (t, mapping, missing) =>
    match tpop t p.name inst.name with
    | (some v, t') =>
      http_consume_params inst ps
        (t', dinsert mapping (compose_oid inst.group p inst) v, missing)
    | (none, t') =>
      http_consume_params inst ps (t', mapping, missing ++ [(p.name, inst.name)])

/-- Instance loop of `ResultPacker.http`. -/
def http_consume :
    List InstanceData →
    Tree × List (String × Value) × List (String × String) →
    Tree × List (String × Value) × List (String × String)
  | [], acc => acc
  | inst :: is_, acc =>
    http_consume is_ (http_consume_params inst inst.group.parameters acc)

/-- Result of `ResultPacker.http` (`collector/tasks.py`): the identifier
mapping handed to the packer plus the recorded missing/unknown pairs and the
log emitted while grouping. -/
structure HttpResult where
  mapping : List (String × Value)
  missing : List (String × String)
  unknown : List (String × String)
  log : List LogEntry
deriving DecidableEq

/-- `ResultPacker.http` (`collector/tasks.py`). -/
def http_pack (host : HostData) (samples : List (String × String × Value)) :
    HttpResult :=
  let t₀ := samples_tree samples
  let (t₁, mapping, missing) := http_consume host.instances (t₀, [], [])
  let unknown := treePairs t₁
  let log₁ : List LogEntry :=
    if missing = [] then [] else [LogEntry.missingSamples missing]
  let log₂ : List LogEntry :=
    if unknown = [] then log₁ else log₁ ++ [LogEntry.unknownSamples unknown]
  { mapping := mapping, missing := missing, unknown := unknown, log := log₂ }

/-- Instance loop of `add_samples` (`collector/tasks.py`): for every
instance compute `packer.fields` then `packer.tags` (computing the memoized
global tags on first use), and emit a point only when the field set is
non-empty. -/
def pack_loop (host : HostData) (tt : Int) :
    List InstanceData → Option (List (String × Value)) → PackState →
    List Point × Option (List (String × Value)) × PackState
  | [], cache, st => ([], cache, st)
  | inst :: is_, cache, st =>
    let (fs, st₁) := inst_fields inst st
    let (tg, cache₁, st₂) := inst_tags host inst cache st₁
    let (rest, cache₂, st₃) := pack_loop host tt is_ cache₁ st₂
    (if fs = [] then rest
     else { measurement := inst.group.name, time := tt,
            fields := fs, tags := tg } :: rest,
     cache₂, st₃)

/-- The two sample shapes accepted by `add_samples`: SNMP chunk results
(`mode=True`) or HTTP triples (`mode=False`). -/
inductive Samples where
  | snmp (chunks : List (List (String × Value)))
  | http (rows : List (String × String × Value))

/-- Observable outcome of one `add_samples` run: the points built, the
`write_points` batches issued, the log, and the final (drained) mapping
whose keys feed the leftover warning. -/
structure AddResult where
  points : List Point
  writes : List (List Point)
  log : List LogEntry
  mapping : List (String × Value)
deriving DecidableEq

/-- `Host.objects.get(name=host)` over the schema snapshot. -/
def findHost (schema : List HostData) (name : String) : Option HostData :=
  schema.find? (fun h => h.name == name)

/-- `int(timestamp / 60)` (`collector/tasks.py`): the minute bucket of a
timestamp, truncation toward zero (computed on the rational directly to
keep the definition kernel-evaluable). -/
def minuteBucket (timestamp : Rat) : Int :=
  Int.tdiv timestamp.num (timestamp.den * 60)

/-- `add_samples` (`collector/tasks.py`): look the host up (an unknown host
logs an error and aborts), build the packer for the samples' origin, run the
per-instance loop, write the non-empty point batch, and warn about leftover
identifiers.  (The wall-clock default for a missing timestamp is external;
the timestamp is therefore a parameter.  The leftover warning interpolates
`set(mapping.keys())`; the key list models it.) -/
def add_samples (schema : List HostData) (samples : Samples) (host : String)
    (timestamp : Rat) : AddResult :=
  match findHost schema host with
  | none =>
    { points := [], writes := [], log := [LogEntry.hostNotFound host],
      mapping := [] }
  | some h =>
    let st₀ : PackState :=
      match samples with
      | .snmp cs => { mapping := snmp_mapping cs, log := [] }
      | .http rows =>
        let r := http_pack h rows
        { mapping := r.mapping, log := r.log }
    let tt := minuteBucket timestamp
    let (points, _, st₁) := pack_loop h tt h.instances none st₀
    let writes := if points = [] then [] else [points]
    let leftover := st₁.mapping.map Prod.fst
    let log :=
      if leftover = [] then st₁.log
      else st₁.log ++ [LogEntry.notIndexedFields leftover h.name]
    { points := points, writes := writes, log := log, mapping := st₁.mapping }

/-! ### Dictionary lemmas -/

/-- Left-biased choice on options, used to state lookup lemmas. -/
def optOr {α : Type} : Option α → Option α → Option α
  | some a, _ => some a
  | none, b => b

/-! ### Decimal representation lemmas -/

/-- Value of a little-endian base-10 digit list. -/
def ofDigits10 : List Nat → Nat
  | [] => 0
  | d :: ds => d + 10 * ofDigits10 ds

/-- All identifiers the host's schema can compose: one per
(instance, parameter) pair, in schema iteration order. -/
def schemaOids (h : HostData) : List String :=
  h.instances.flatMap
    (fun i => i.group.parameters.map (fun p => compose_oid i.group p i))

/-! ### Shape of `add_samples` results -/

/-- The packer state `add_samples` starts from, by sample origin. -/
def init_state (h : HostData) : Samples → PackState
  | .snmp cs => { mapping := snmp_mapping cs, log := [] }
  | .http rows =>
    { mapping := (http_pack h rows).mapping, log := (http_pack h rows).log }

/-- Extensional equality of packer states: equal lookups and equal logs. -/
def StEq (st st' : PackState) : Prop :=
  (∀ k, dlookup st.mapping k = dlookup st'.mapping k) ∧ st.log = st'.log

/-! ### Global-tag precedence -/

/-- The concatenated indexing pairs drained from scalar instances, in the
order `global_tags` applies them. -/
def scalar_pairs : List InstanceData → PackState →
    List (String × Value) × PackState
  | [], st => ([], st)
  | i :: is_, st =>
    if i.group.type = SCALAR then
      ((values_for_instance i true st).1 ++
        (scalar_pairs is_ (values_for_instance i true st).2).1,
       (scalar_pairs is_ (values_for_instance i true st).2).2)
    else scalar_pairs is_ st

/-- Well-formedness of the nested tree as produced by Python dictionaries:
unique outer keys and unique inner keys. -/
def TreeWF (t : Tree) : Prop :=
  (t.map Prod.fst).Nodup ∧ ∀ q ∈ t, (q.2.map Prod.fst).Nodup

/-- The push-origin consumption loop flattened to one (instance, parameter)
pair per step; `http_consume` is this fold over the schema's nested
iteration order. -/
def http_consume_pairs :
    List (InstanceData × Parameter) →
    Tree × List (String × Value) × List (String × String) →
    Tree × List (String × Value) × List (String × String)
  | [], acc => acc
  | ip :: rest, (t, mapping, missing) =>
    match tpop t ip.2.name ip.1.name with
    | (some v, t') =>
      http_consume_pairs rest
        (t', dinsert mapping (compose_oid ip.1.group ip.2 ip.1) v, missing)
    | (none, t') =>
      http_consume_pairs rest (t', mapping, missing ++ [(ip.2.name, ip.1.name)])

/-- The schema's (instance, parameter) pairs in iteration order. -/
def schemaIP (h : HostData) : List (InstanceData × Parameter) :=
  h.instances.flatMap (fun i => i.group.parameters.map (fun p => (i, p)))

/-- The schema-defined (parameter name, instance name) pairs of a host, in
iteration order. -/
def schemaPairs (h : HostData) : List (String × String) :=
  h.instances.flatMap
    (fun i => i.group.parameters.map (fun p => (p.name, i.name)))

/-- The characters the schema store's `oid_validator` admits in a group's
structural identifier (`^(\d+\.)+\d+$`): digits and dots. -/
@[reducible] def OidChars (s : String) : Prop :=
  ∀ c ∈ s.data, c.isDigit = true ∨ c = '.'

/-- Absence of the name-scheme separator from a name. -/
@[reducible] def NoColon (s : String) : Prop := ∀ c ∈ s.data, c ≠ ':'

/-- The amended well-formedness under which `compose_oid` is injective over
one host's schema: the store's primary keys and uniqueness constraints,
plus distinct non-empty group structural identifiers with validator-shaped
characters, distinct parameter suffixes within a group, colon-free names,
and per-group distinct instance names where the name scheme is used. -/
@[reducible] def InjSchemaWF (h : HostData) : Prop :=
  (∀ i ∈ h.instances, ∀ j ∈ h.instances,
      i.group.name = j.group.name → i.group = j.group) ∧
  (∀ i ∈ h.instances, ∀ j ∈ h.instances, ∀ p ∈ i.group.parameters,
      ∀ q ∈ j.group.parameters, p.name = q.name → p = q ∧ i.group = j.group) ∧
  (∀ i ∈ h.instances, ∀ j ∈ h.instances,
      i.group = j.group → i.oid = j.oid → i = j) ∧
  (∀ i ∈ h.instances, ∀ j ∈ h.instances,
      i.group.oid ≠ "" → i.group.oid = j.group.oid → i.group = j.group) ∧
  (∀ i ∈ h.instances, ∀ p ∈ i.group.parameters, ∀ q ∈ i.group.parameters,
      p.oid = q.oid → p = q) ∧
  (∀ i ∈ h.instances, OidChars i.group.oid) ∧
  (∀ i ∈ h.instances, NoColon i.name ∧
      ∀ p ∈ i.group.parameters, NoColon p.name) ∧
  (∀ i ∈ h.instances, ∀ j ∈ h.instances, i.group = j.group →
      i.group.oid = "" → i.name = j.name → i = j)

/-! ### Concrete schemas and samples for the scenario theorems -/

/-- Scenario A's scalar group `G` (structural id `1.2`): indexing integer
`idx` (suffix 1), non-indexing float `cpu` (suffix 2). -/
def G1 : GroupData :=
  { name := "G", type := SCALAR, oid := "1.2",
    parameters :=
      [ { name := "idx", type := PType.integer, indexing := true, oid := 1 },
        { name := "cpu", type := PType.float, indexing := false, oid := 2 } ] }

/-- Scenario A's host `h1` with one scalar instance of `G`. -/
def h1 : HostData :=
  { name := "h1", tag_values := [],
    instances := [ { group := G1, oid := 0, name := "" } ] }

/-- Scenario D's group: two non-indexing parameters, `x` integer and `cpu`
float. -/
def GD : GroupData :=
  { name := "G", type := SCALAR, oid := "1.3",
    parameters :=
      [ { name := "x", type := PType.integer, indexing := false, oid := 1 },
        { name := "cpu", type := PType.float, indexing := false, oid := 2 } ] }

/-- Scenario D's host. -/
def hD : HostData :=
  { name := "hD", tag_values := [],
    instances := [ { group := GD, oid := 0, name := "" } ] }

/-- The point Scenario D still emits after the cast failure drops `x`. -/
def ptD : Point :=
  { measurement := "G", time := 0,
    fields := [("cpu", Value.f (mkRat 7 2))],
    tags := [("host", Value.s "hD")] }

/-- A tabular group with a single parameter `temp`. -/
def gT : GroupData :=
  { name := "g", type := TABULAR, oid := "",
    parameters :=
      [ { name := "temp", type := PType.integer, indexing := false, oid := 0 } ] }

/-- A host with two tabular instances of `gT` that share the name `x`
(permitted: the store's uniqueness is on (group, host, ordinal) only). -/
def hC4 : HostData :=
  { name := "hC4", tag_values := [],
    instances := [ { group := gT, oid := 1, name := "x" },
                   { group := gT, oid := 2, name := "x" } ] }

/-- A push submission supplying exactly one value for `(temp, x)`. -/
def sC4 : List (String × String × Value) := [("temp", "x", Value.i 5)]

/-- A scalar group with one non-indexing float parameter. -/
def G9 : GroupData :=
  { name := "G9", type := SCALAR, oid := "1.4",
    parameters :=
      [ { name := "p", type := PType.float, indexing := false, oid := 1 } ] }

/-- The host for the chunk-permutation scenario. -/
def h9 : HostData :=
  { name := "h9", tag_values := [],
    instances := [ { group := G9, oid := 0, name := "" } ] }

/-- Two chunks that both report identifier `1.4.1.0`, in one order. -/
def csA : List (List (String × Value)) :=
  [[("1.4.1.0", Value.i 1)], [("1.4.1.0", Value.i 2)]]

/-- The same two chunks, swapped. -/
def csB : List (List (String × Value)) :=
  [[("1.4.1.0", Value.i 2)], [("1.4.1.0", Value.i 1)]]

/-- Chunk results with distinct identifiers, in one order. -/
def csW₁ : List (List (String × Value)) :=
  [[("1.4.1.0", Value.i 1)], [("9.9.9.9", Value.i 2)]]

/-- The same chunk results, swapped. -/
def csW₂ : List (List (String × Value)) :=
  [[("9.9.9.9", Value.i 2)], [("1.4.1.0", Value.i 1)]]

/-- A scalar group whose indexing parameter is named `host`. -/
def GH : GroupData :=
  { name := "GH", type := SCALAR, oid := "1.5",
    parameters :=
      [ { name := "host", type := PType.integer, indexing := true, oid := 1 } ] }

/-- A host carrying a TagValue keyed `host` and a scalar instance of `GH`. -/
def hH : HostData :=
  { name := "hH", tag_values := [("host", "tagged")],
    instances := [ { group := GH, oid := 0, name := "" } ] }

/-- A scalar group with an indexing `idx` and a field `a`. -/
def GA : GroupData :=
  { name := "GA", type := SCALAR, oid := "2.1",
    parameters :=
      [ { name := "idx", type := PType.integer, indexing := true, oid := 1 },
        { name := "a", type := PType.float, indexing := false, oid := 2 } ] }

/-- A second scalar group with a field `b`. -/
def GB : GroupData :=
  { name := "GB", type := SCALAR, oid := "2.2",
    parameters :=
      [ { name := "b", type := PType.float, indexing := false, oid := 1 } ] }

/-- A host with scalar instances of both `GA` and `GB`: `idx`'s value lands
in the global tags of both emitted points. -/
def hAB : HostData :=
  { name := "hAB", tag_values := [],
    instances := [ { group := GA, oid := 0, name := "" },
                   { group := GB, oid := 0, name := "" } ] }

/-- The chunk results for the `hAB` scenario. -/
def csAB : List (List (String × Value)) :=
  [[("2.1.1.0", Value.i 7), ("2.1.2.0", Value.i 1), ("2.2.1.0", Value.i 2)]]

/-- A group whose two parameters carry the same structural suffix 5 — the
store enforces no uniqueness on `Parameter.oid`. -/
def gX : GroupData :=
  { name := "gX", type := SCALAR, oid := "1.2",
    parameters :=
      [ { name := "a", type := PType.integer, indexing := false, oid := 5 },
        { name := "b", type := PType.integer, indexing := false, oid := 5 } ] }

/-- The first parameter of `gX`. -/
def pA : Parameter :=
  { name := "a", type := PType.integer, indexing := false, oid := 5 }

/-- The second parameter of `gX`, a distinct row (different primary key). -/
def pB : Parameter :=
  { name := "b", type := PType.integer, indexing := false, oid := 5 }

/-- The scalar instance binding `gX` to a host. -/
def iX : InstanceData := { group := gX, oid := 0, name := "" }

/-- A host holding the colliding configuration (a valid store state: group
names, parameter names unique, one instance per (group, host, ordinal)). -/
def hX : HostData :=
  { name := "hX", tag_values := [], instances := [iX] }

/-- Does identifier `k`'s cast initial value occur, under some schema
parameter composing `k`, among a point's tags or fields?  This is the
"contributed a tag or field value" reading of the draining-completeness
claim. -/
def contributes (h : HostData) (m₀ : List (String × Value)) (k : String)
    (pt : Point) : Bool :=
  h.instances.any fun i => i.group.parameters.any fun p =>
    (compose_oid i.group p i == k) &&
    (match dlookup m₀ k with
     | none => false
     | some v =>
       match cast_value p.type v with
       | none => false
       | some w =>
         decide ((p.name, w) ∈ pt.fields) || decide ((p.name, w) ∈ pt.tags))

/-- Is identifier `k` listed in a leftover (not-indexed-fields) warning of
the run's log? -/
def inLeftoverWarning (r : AddResult) (k : String) : Bool :=
  r.log.any fun e =>
    match e with
    | LogEntry.notIndexedFields leftover _ => decide (k ∈ leftover)
    | _ => false

/-- The draining-completeness claim as stated, for one poll-origin run:
every identifier present in the mapping either contributed a tag or field
value to exactly one emitted point, or is recorded in the leftover
warning. -/
def DrainingCompleteClaim (sch : List HostData) (h : HostData)
    (cs : List (List (String × Value))) (n : String) (ts : Rat) : Prop :=
  ∀ k ∈ (snmp_mapping cs).map Prod.fst,
    (add_samples sch (Samples.snmp cs) n ts).points.countP
      (contributes h (snmp_mapping cs) k) = 1 ∨
    inLeftoverWarning (add_samples sch (Samples.snmp cs) n ts) k = true

@[simp] theorem optOr_some {α : Type} (a : α) (x : Option α) :
    optOr (some a) x = some a := rfl

@[simp] theorem optOr_none {α : Type} (x : Option α) : optOr none x = x := rfl

@[simp] theorem optOr_right_none {α : Type} (x : Option α) : optOr x none = x := by
  cases x <;> rfl

@[simp] theorem dlookup_nil {α : Type} (k : String) :
    dlookup ([] : List (String × α)) k = none := rfl

theorem dlookup_cons {α : Type} (q : String × α) (m : List (String × α))
    (k : String) :
    dlookup (q :: m) k = if q.1 = k then some q.2 else dlookup m k := by
  by_cases h : q.1 = k <;> simp [dlookup, List.find?_cons, h]

theorem dlookup_append {α : Type} (l₁ l₂ : List (String × α)) (k : String) :
    dlookup (l₁ ++ l₂) k = optOr (dlookup l₁ k) (dlookup l₂ k) := by
  induction l₁ with
  | nil => simp
  | cons q l ih =>
    by_cases h : q.1 = k <;> simp [dlookup_cons, h, ih]

theorem dlookup_dinsert {α : Type} (m : List (String × α)) (k k' : String)
    (v : α) :
    dlookup (dinsert m k v) k' = if k' = k then some v else dlookup m k' := by
  induction m with
  | nil =>
    by_cases h : k' = k
    · subst h; simp [dinsert, dlookup_cons]
    · have h' : ¬ k = k' := fun e => h e.symm
      simp [dinsert, dlookup_cons, h, h']
  | cons q m ih =>
    by_cases hq : q.1 = k
    · by_cases h : k' = k
      · subst h; simp [dinsert, hq, dlookup_cons]
      · have h' : ¬ k = k' := fun e => h e.symm
        have h'' : ¬ q.1 = k' := fun e => h (e.symm.trans hq)
        simp [dinsert, hq, dlookup_cons, h, h', h'']
    · by_cases h : q.1 = k'
      · have h' : ¬ k' = k := fun e => hq (h.trans e)
        simp [dinsert, hq, dlookup_cons, h, h']
      · simp [dinsert, hq, dlookup_cons, h, ih]

theorem dlookup_dremove {α : Type} (m : List (String × α)) (k k' : String) :
    dlookup (dremove m k) k' = if k' = k then none else dlookup m k' := by
  induction m with
  | nil => simp [dremove]
  | cons q m ih =>
    rw [dremove, List.filter_cons]
    by_cases hq : q.1 = k
    · have hb : (!(q.1 == k)) = false := by simp [hq]
      rw [hb, if_neg (by simp)]
      rw [show List.filter (fun q => !(q.1 == k)) m = dremove m k from rfl, ih]
      by_cases h : k' = k
      · simp [h]
      · have h'' : ¬ q.1 = k' := fun e => h (e.symm.trans hq)
        simp [h, dlookup_cons, h'']
    · have hb : (!(q.1 == k)) = true := by simp [hq]
      rw [hb, if_pos rfl]
      rw [dlookup_cons,
        show List.filter (fun q => !(q.1 == k)) m = dremove m k from rfl, ih,
        dlookup_cons]
      by_cases h : q.1 = k'
      · have h' : ¬ k' = k := fun e => hq (h.trans e)
        simp [h, h']
      · simp [h]

@[simp] theorem updateDict_nil {α : Type} (m : List (String × α)) :
    updateDict m [] = m := rfl

theorem updateDict_cons {α : Type} (m : List (String × α)) (q : String × α)
    (ps : List (String × α)) :
    updateDict m (q :: ps) = updateDict (dinsert m q.1 q.2) ps := rfl

theorem updateDict_append {α : Type} (m ps qs : List (String × α)) :
    updateDict m (ps ++ qs) = updateDict (updateDict m ps) qs := by
  simp [updateDict, List.foldl_append]

theorem dlookup_updateDict {α : Type} (ps m : List (String × α)) (k : String) :
    dlookup (updateDict m ps) k = optOr (dlookup ps.reverse k) (dlookup m k) := by
  induction ps generalizing m with
  | nil => simp
  | cons q ps ih =>
    rw [updateDict_cons, ih, List.reverse_cons, dlookup_append]
    cases h : dlookup ps.reverse k with
    | some v => simp
    | none =>
      by_cases hk : k = q.1
      · simp [dlookup_dinsert, dlookup_cons, hk]
      · have hk' : ¬ q.1 = k := fun e => hk e.symm
        simp [dlookup_dinsert, dlookup_cons, hk, hk']

theorem dlookup_buildDict {α : Type} (ps : List (String × α)) (k : String) :
    dlookup (buildDict ps) k = dlookup ps.reverse k := by
  rw [buildDict, dlookup_updateDict]; simp

theorem dlookup_eq_none_iff {α : Type} (m : List (String × α)) (k : String) :
    dlookup m k = none ↔ k ∉ m.map Prod.fst := by
  induction m with
  | nil => simp
  | cons q m ih =>
    rw [dlookup_cons]
    by_cases h : q.1 = k
    · simp [h]
    · have h' : ¬ k = q.1 := fun e => h e.symm
      simp [h, h', ih]

theorem dlookup_isSome_iff {α : Type} (m : List (String × α)) (k : String) :
    (dlookup m k).isSome = true ↔ k ∈ m.map Prod.fst := by
  rw [← Decidable.not_iff_not, ← dlookup_eq_none_iff]
  cases dlookup m k <;> simp

theorem dlookup_eq_some_iff_mem {α : Type} (m : List (String × α))
    (hn : (m.map Prod.fst).Nodup) (k : String) (v : α) :
    dlookup m k = some v ↔ (k, v) ∈ m := by
  induction m with
  | nil => simp
  | cons q m ih =>
    simp only [List.map_cons, List.nodup_cons] at hn
    by_cases h : q.1 = k
    · subst h
      simp only [dlookup_cons, if_pos rfl, List.mem_cons]
      constructor
      · intro e
        injection e with e
        left; rw [← e]
      · rintro (e | e)
        · exact congrArg some ((congrArg Prod.snd e).symm)
        · exact absurd (List.mem_map_of_mem Prod.fst e) hn.1
    · simp only [dlookup_cons, if_neg h, List.mem_cons, ih hn.2]
      constructor
      · exact fun e => Or.inr e
      · rintro (e | e)
        · exact absurd (by rw [← e] : q.1 = k) h
        · exact e

theorem dinsert_of_fresh {α : Type} (m : List (String × α)) (k : String)
    (v : α) (h : k ∉ m.map Prod.fst) : dinsert m k v = m ++ [(k, v)] := by
  induction m with
  | nil => simp [dinsert]
  | cons q m ih =>
    simp only [List.map_cons, List.mem_cons] at h
    push_neg at h
    have h' : ¬ q.1 = k := fun e => h.1 e.symm
    simp [dinsert, h', ih h.2]

theorem updateDict_of_fresh {α : Type} (ps m : List (String × α))
    (hn : (ps.map Prod.fst).Nodup)
    (hd : ∀ x ∈ ps.map Prod.fst, x ∉ m.map Prod.fst) :
    updateDict m ps = m ++ ps := by
  induction ps generalizing m with
  | nil => simp
  | cons q ps ih =>
    simp only [List.map_cons, List.nodup_cons] at hn
    rw [updateDict_cons, dinsert_of_fresh m q.1 q.2 (hd q.1 (by simp))]
    rw [ih _ hn.2]
    · simp
    · intro x hx
      simp only [List.map_append, List.mem_append, List.map_cons]
      push_neg
      refine ⟨hd x (by simp [hx]), ?_⟩
      simp only [List.map_nil, List.mem_singleton]
      intro e; rw [e] at hx; exact hn.1 hx

theorem buildDict_of_nodupkeys {α : Type} (ps : List (String × α))
    (hn : (ps.map Prod.fst).Nodup) : buildDict ps = ps := by
  rw [buildDict, updateDict_of_fresh ps [] hn (by simp)]; rfl

theorem ofDigits10_natDigitsAux :
    ∀ fuel n, n ≤ fuel → ofDigits10 (natDigitsAux fuel n) = n := by
  intro fuel
  induction fuel with
  | zero =>
    intro n h
    interval_cases n
    rfl
  | succ f ih =>
    intro n h
    by_cases h0 : n = 0
    · subst h0; simp [natDigitsAux, ofDigits10]
    · rw [natDigitsAux, if_neg h0, ofDigits10]
      have hlt : n / 10 < n := Nat.div_lt_self (Nat.pos_of_ne_zero h0) (by omega)
      rw [ih (n / 10) (by omega)]
      omega

theorem ofDigits10_natDigits (n : Nat) : ofDigits10 (natDigits n) = n :=
  ofDigits10_natDigitsAux n n (Nat.le_refl n)

theorem natDigits_inj {m n : Nat} (h : natDigits m = natDigits n) : m = n := by
  have := congrArg ofDigits10 h
  rwa [ofDigits10_natDigits, ofDigits10_natDigits] at this

theorem natDigitsAux_lt_base :
    ∀ fuel n, ∀ d ∈ natDigitsAux fuel n, d < 10 := by
  intro fuel
  induction fuel with
  | zero => intro n d hd; simp [natDigitsAux] at hd
  | succ f ih =>
    intro n d hd
    by_cases h0 : n = 0
    · subst h0; simp [natDigitsAux] at hd
    · rw [natDigitsAux, if_neg h0] at hd
      rcases List.mem_cons.mp hd with e | e
      · rw [e]; exact Nat.mod_lt n (by omega)
      · exact ih (n / 10) d e

theorem natDigits_lt_base (n : Nat) : ∀ d ∈ natDigits n, d < 10 :=
  natDigitsAux_lt_base n n

theorem digitChar_inj10 :
    ∀ a < 10, ∀ b < 10, Nat.digitChar a = Nat.digitChar b → a = b := by decide

theorem digitChar_isDigit10 : ∀ a < 10, (Nat.digitChar a).isDigit = true := by
  decide

theorem map_digitChar_inj :
    ∀ l₁ l₂ : List Nat, (∀ d ∈ l₁, d < 10) → (∀ d ∈ l₂, d < 10) →
      l₁.map Nat.digitChar = l₂.map Nat.digitChar → l₁ = l₂ := by
  intro l₁
  induction l₁ with
  | nil =>
    intro l₂ _ _ h
    cases l₂ with
    | nil => rfl
    | cons x xs => simp at h
  | cons x xs ih =>
    intro l₂ h₁ h₂ h
    cases l₂ with
    | nil => simp at h
    | cons y ys =>
      simp only [List.map_cons, List.cons.injEq] at h
      have hx : x = y :=
        digitChar_inj10 x (h₁ x (by simp)) y (h₂ y (by simp)) h.1
      rw [hx, ih ys (fun d hd => h₁ d (by simp [hd]))
        (fun d hd => h₂ d (by simp [hd])) h.2]

theorem natRepr_inj {m n : Nat} (h : natRepr m = natRepr n) : m = n := by
  have hdata := congrArg String.data h
  by_cases hm : m = 0 <;> by_cases hn : n = 0
  · rw [hm, hn]
  · exfalso
    rw [natRepr, if_pos hm, natRepr, if_neg hn] at hdata
    have : natDigits n = [0] := by
      have h0 : ((natDigits n).map Nat.digitChar).reverse = ['0'] := hdata.symm
      have h1 : (natDigits n).map Nat.digitChar = ['0'] := by
        have := congrArg List.reverse h0
        simpa using this
      have h2 : (natDigits n).map Nat.digitChar = [0].map Nat.digitChar := by
        simpa using h1
      exact map_digitChar_inj _ _ (natDigits_lt_base n) (by simp) h2
    have := congrArg ofDigits10 this
    rw [ofDigits10_natDigits] at this
    simp [ofDigits10] at this
    exact hn this
  · exfalso
    rw [natRepr, if_neg hm, natRepr, if_pos hn] at hdata
    have : natDigits m = [0] := by
      have h1 : (natDigits m).map Nat.digitChar = ['0'] := by
        have := congrArg List.reverse hdata
        simpa using this
      have h2 : (natDigits m).map Nat.digitChar = [0].map Nat.digitChar := by
        simpa using h1
      exact map_digitChar_inj _ _ (natDigits_lt_base m) (by simp) h2
    have := congrArg ofDigits10 this
    rw [ofDigits10_natDigits] at this
    simp [ofDigits10] at this
    exact hm this
  · rw [natRepr, if_neg hm, natRepr, if_neg hn] at hdata
    have h1 : (natDigits m).map Nat.digitChar = (natDigits n).map Nat.digitChar := by
      have := congrArg List.reverse hdata
      simpa using this
    exact natDigits_inj
      (map_digitChar_inj _ _ (natDigits_lt_base m) (natDigits_lt_base n) h1)

theorem natRepr_chars (n : Nat) : ∀ c ∈ (natRepr n).data, c.isDigit = true := by
  by_cases h : n = 0
  · subst h; intro c hc; simp [natRepr] at hc; subst hc; decide
  · rw [natRepr, if_neg h]
    intro c hc
    simp only [List.mem_reverse, List.mem_map] at hc
    obtain ⟨d, hd, e⟩ := hc
    rw [← e]
    exact digitChar_isDigit10 d (natDigits_lt_base n d hd)

theorem isDigit_ne_dot {c : Char} (h : c.isDigit = true) : c ≠ '.' := by
  intro e; subst e; exact absurd h (by decide)

theorem isDigit_ne_colon {c : Char} (h : c.isDigit = true) : c ≠ ':' := by
  intro e; subst e; exact absurd h (by decide)

/-! ### Separator-splitting lemmas -/

theorem sep_first {α : Type} (d : α) :
    ∀ a₁ b₁ a₂ b₂ : List α, d ∉ a₁ → d ∉ a₂ →
      a₁ ++ d :: b₁ = a₂ ++ d :: b₂ → a₁ = a₂ ∧ b₁ = b₂ := by
  intro a₁
  induction a₁ with
  | nil =>
    intro b₁ a₂ b₂ _ h₂ he
    cases a₂ with
    | nil => simpa using he
    | cons y ys =>
      exfalso
      simp only [List.nil_append, List.cons_append, List.cons.injEq] at he
      exact h₂ (he.1 ▸ List.mem_cons_self y ys)
  | cons x xs ih =>
    intro b₁ a₂ b₂ h₁ h₂ he
    cases a₂ with
    | nil =>
      exfalso
      simp only [List.nil_append, List.cons_append, List.cons.injEq] at he
      exact h₁ (he.1 ▸ List.mem_cons_self x xs)
    | cons y ys =>
      simp only [List.cons_append, List.cons.injEq] at he
      have hr := ih b₁ ys b₂ (fun e => h₁ (List.mem_cons_of_mem x e))
        (fun e => h₂ (List.mem_cons_of_mem y e)) he.2
      exact ⟨by rw [he.1, hr.1], hr.2⟩

theorem sep_last {α : Type} (d : α) (a₁ b₁ a₂ b₂ : List α)
    (h₁ : d ∉ b₁) (h₂ : d ∉ b₂) (he : a₁ ++ d :: b₁ = a₂ ++ d :: b₂) :
    a₁ = a₂ ∧ b₁ = b₂ := by
  have hrev : b₁.reverse ++ d :: a₁.reverse = b₂.reverse ++ d :: a₂.reverse := by
    have h := congrArg List.reverse he
    simpa [List.reverse_append, List.append_assoc] using h
  have hr := sep_first d b₁.reverse a₁.reverse b₂.reverse a₂.reverse
    (by simpa using h₁) (by simpa using h₂) hrev
  exact ⟨List.reverse_injective hr.2, List.reverse_injective hr.1⟩

@[simp] theorem string_data_append (a b : String) :
    (a ++ b).data = a.data ++ b.data := rfl

/-! ### Equation lemmas for `values_for_params` -/

theorem vfp_nil (inst : InstanceData) (ix : Bool) (st : PackState) :
    values_for_params inst ix [] st = ([], st) := rfl

theorem vfp_cons_absent (inst : InstanceData) (ix : Bool) (p : Parameter)
    (ps : List Parameter) (st : PackState)
    (h : dlookup st.mapping (compose_oid inst.group p inst) = none) :
    values_for_params inst ix (p :: ps) st = values_for_params inst ix ps st := by
  simp [values_for_params, h]

theorem vfp_cons_skip (inst : InstanceData) (ix : Bool) (p : Parameter)
    (ps : List Parameter) (st : PackState) (v : Value)
    (h : dlookup st.mapping (compose_oid inst.group p inst) = some v)
    (hix : ¬ p.indexing = ix) :
    values_for_params inst ix (p :: ps) st = values_for_params inst ix ps st := by
  simp [values_for_params, h, hix]

theorem vfp_cons_castfail (inst : InstanceData) (ix : Bool) (p : Parameter)
    (ps : List Parameter) (st : PackState) (v : Value)
    (h : dlookup st.mapping (compose_oid inst.group p inst) = some v)
    (hix : p.indexing = ix) (hc : cast_value p.type v = none) :
    values_for_params inst ix (p :: ps) st =
      values_for_params inst ix ps
        { mapping := dremove st.mapping (compose_oid inst.group p inst),
          log := st.log ++
            [LogEntry.castError v (casterName p.type) (typeName v)] } := by
  simp [values_for_params, h, hix, hc]

theorem vfp_cons_castok (inst : InstanceData) (ix : Bool) (p : Parameter)
    (ps : List Parameter) (st : PackState) (v w : Value)
    (h : dlookup st.mapping (compose_oid inst.group p inst) = some v)
    (hix : p.indexing = ix) (hc : cast_value p.type v = some w) :
    values_for_params inst ix (p :: ps) st =
      ((p.name, w) ::
        (values_for_params inst ix ps
          { st with mapping := dremove st.mapping (compose_oid inst.group p inst) }).1,
       (values_for_params inst ix ps
          { st with mapping := dremove st.mapping (compose_oid inst.group p inst) }).2) := by
  rcases hE : values_for_params inst ix ps
      { st with mapping := dremove st.mapping (compose_oid inst.group p inst) }
    with ⟨r, s⟩
  simp [values_for_params, h, hix, hc, hE]

/-! ### Draining properties of `values_for_params` -/

theorem vfp_mapping_none (inst : InstanceData) (ix : Bool) :
    ∀ (ps : List Parameter) (st : PackState) (k : String),
      dlookup st.mapping k = none →
      dlookup (values_for_params inst ix ps st).2.mapping k = none := by
  intro ps
  induction ps with
  | nil => intro st k h; rw [vfp_nil]; exact h
  | cons p ps ih =>
    intro st k h
    cases hl : dlookup st.mapping (compose_oid inst.group p inst) with
    | none => rw [vfp_cons_absent _ _ _ _ _ hl]; exact ih st k h
    | some v =>
      by_cases hix : p.indexing = ix
      · cases hc : cast_value p.type v with
        | none =>
          rw [vfp_cons_castfail _ _ _ _ _ _ hl hix hc]
          apply ih
          simp only [dlookup_dremove]
          split <;> simp [h]
        | some w =>
          rw [vfp_cons_castok _ _ _ _ _ _ _ hl hix hc]
          apply ih
          simp only [dlookup_dremove]
          split <;> simp [h]
      · rw [vfp_cons_skip _ _ _ _ _ _ hl hix]; exact ih st k h

theorem vfp_mapping_frame (inst : InstanceData) (ix : Bool) :
    ∀ (ps : List Parameter) (st : PackState) (k : String),
      (∀ p ∈ ps, compose_oid inst.group p inst ≠ k) →
      dlookup (values_for_params inst ix ps st).2.mapping k =
        dlookup st.mapping k := by
  intro ps
  induction ps with
  | nil => intro st k _; rw [vfp_nil]
  | cons p ps ih =>
    intro st k hk
    have hk0 : compose_oid inst.group p inst ≠ k := hk p (by simp)
    have hks : ∀ p' ∈ ps, compose_oid inst.group p' inst ≠ k :=
      fun p' hp' => hk p' (by simp [hp'])
    cases hl : dlookup st.mapping (compose_oid inst.group p inst) with
    | none => rw [vfp_cons_absent _ _ _ _ _ hl]; exact ih st k hks
    | some v =>
      by_cases hix : p.indexing = ix
      · cases hc : cast_value p.type v with
        | none =>
          rw [vfp_cons_castfail _ _ _ _ _ _ hl hix hc, ih _ k hks]
          simp only [dlookup_dremove]
          rw [if_neg (fun e => hk0 e.symm)]
        | some w =>
          rw [vfp_cons_castok _ _ _ _ _ _ _ hl hix hc]
          rw [ih _ k hks]
          simp only [dlookup_dremove]
          rw [if_neg (fun e => hk0 e.symm)]
      · rw [vfp_cons_skip _ _ _ _ _ _ hl hix]; exact ih st k hks

theorem vfp_mapping_matched (inst : InstanceData) (ix : Bool) :
    ∀ (ps : List Parameter) (st : PackState) (p : Parameter), p ∈ ps →
      p.indexing = ix →
      dlookup (values_for_params inst ix ps st).2.mapping
        (compose_oid inst.group p inst) = none := by
  intro ps
  induction ps with
  | nil => intro st p hp; exact absurd hp (List.not_mem_nil p)
  | cons q ps ih =>
    intro st p hp hix
    rcases List.mem_cons.mp hp with e | e
    · subst e
      cases hl : dlookup st.mapping (compose_oid inst.group p inst) with
      | none => rw [vfp_cons_absent _ _ _ _ _ hl]; exact vfp_mapping_none _ _ _ _ _ hl
      | some v =>
        cases hc : cast_value p.type v with
        | none =>
          rw [vfp_cons_castfail _ _ _ _ _ _ hl hix hc]
          apply vfp_mapping_none
          simp [dlookup_dremove]
        | some w =>
          rw [vfp_cons_castok _ _ _ _ _ _ _ hl hix hc]
          apply vfp_mapping_none
          simp [dlookup_dremove]
    · cases hl : dlookup st.mapping (compose_oid inst.group q inst) with
      | none => rw [vfp_cons_absent _ _ _ _ _ hl]; exact ih st p e hix
      | some v =>
        by_cases hqix : q.indexing = ix
        · cases hc : cast_value q.type v with
          | none =>
            rw [vfp_cons_castfail _ _ _ _ _ _ hl hqix hc]
            exact ih _ p e hix
          | some w =>
            rw [vfp_cons_castok _ _ _ _ _ _ _ hl hqix hc]
            exact ih _ p e hix
        · rw [vfp_cons_skip _ _ _ _ _ _ hl hqix]; exact ih st p e hix

/-! ### Draining properties of the global-tag computation -/

theorem gtf_nil (t : List (String × Value)) (st : PackState) :
    global_tags_fold [] t st = (t, st) := rfl

theorem gtf_cons_scalar (inst : InstanceData) (is_ : List InstanceData)
    (t : List (String × Value)) (st : PackState)
    (h : inst.group.type = SCALAR) :
    global_tags_fold (inst :: is_) t st =
      global_tags_fold is_ (updateDict t (values_for_instance inst true st).1)
        (values_for_instance inst true st).2 := by
  rcases hE : values_for_instance inst true st with ⟨ps, st'⟩
  simp [global_tags_fold, h, hE]

theorem gtf_cons_tabular (inst : InstanceData) (is_ : List InstanceData)
    (t : List (String × Value)) (st : PackState)
    (h : ¬ inst.group.type = SCALAR) :
    global_tags_fold (inst :: is_) t st = global_tags_fold is_ t st := by
  simp [global_tags_fold, h]

theorem gtf_mapping_none :
    ∀ (is_ : List InstanceData) (t : List (String × Value)) (st : PackState)
      (k : String), dlookup st.mapping k = none →
      dlookup (global_tags_fold is_ t st).2.mapping k = none := by
  intro is_
  induction is_ with
  | nil => intro t st k h; rw [gtf_nil]; exact h
  | cons i is_ ih =>
    intro t st k h
    by_cases hty : i.group.type = SCALAR
    · rw [gtf_cons_scalar _ _ _ _ hty]
      exact ih _ _ k (vfp_mapping_none _ _ _ _ _ h)
    · rw [gtf_cons_tabular _ _ _ _ hty]; exact ih _ _ k h

theorem gtf_mapping_frame :
    ∀ (is_ : List InstanceData) (t : List (String × Value)) (st : PackState)
      (k : String),
      (∀ i ∈ is_, ∀ p ∈ i.group.parameters, compose_oid i.group p i ≠ k) →
      dlookup (global_tags_fold is_ t st).2.mapping k = dlookup st.mapping k := by
  intro is_
  induction is_ with
  | nil => intro t st k _; rw [gtf_nil]
  | cons i is_ ih =>
    intro t st k hk
    have hki : ∀ p ∈ i.group.parameters, compose_oid i.group p i ≠ k :=
      fun p hp => hk i (by simp) p hp
    have hks : ∀ i' ∈ is_, ∀ p ∈ i'.group.parameters,
        compose_oid i'.group p i' ≠ k :=
      fun i' hi' p hp => hk i' (by simp [hi']) p hp
    by_cases hty : i.group.type = SCALAR
    · rw [gtf_cons_scalar _ _ _ _ hty, ih _ _ k hks]
      exact vfp_mapping_frame _ _ _ _ _ hki
    · rw [gtf_cons_tabular _ _ _ _ hty]; exact ih _ _ k hks

theorem gtf_mapping_matched :
    ∀ (is_ : List InstanceData) (t : List (String × Value)) (st : PackState)
      (i : InstanceData), i ∈ is_ → i.group.type = SCALAR →
      ∀ p ∈ i.group.parameters, p.indexing = true →
      dlookup (global_tags_fold is_ t st).2.mapping (compose_oid i.group p i) =
        none := by
  intro is_
  induction is_ with
  | nil => intro t st i hi; exact absurd hi (List.not_mem_nil i)
  | cons j is_ ih =>
    intro t st i hi hty p hp hix
    rcases List.mem_cons.mp hi with e | e
    · subst e
      rw [gtf_cons_scalar _ _ _ _ hty]
      exact gtf_mapping_none _ _ _ _
        (vfp_mapping_matched _ _ _ _ _ hp hix)
    · by_cases hjty : j.group.type = SCALAR
      · rw [gtf_cons_scalar _ _ _ _ hjty]
        exact ih _ _ i e hty p hp hix
      · rw [gtf_cons_tabular _ _ _ _ hjty]
        exact ih _ _ i e hty p hp hix

theorem gtc_mapping_none (host : HostData) (st : PackState) (k : String)
    (h : dlookup st.mapping k = none) :
    dlookup (global_tags_compute host st).2.mapping k = none :=
  gtf_mapping_none _ _ _ _ h

theorem gtc_mapping_frame (host : HostData) (st : PackState) (k : String)
    (hk : ∀ i ∈ host.instances, ∀ p ∈ i.group.parameters,
      compose_oid i.group p i ≠ k) :
    dlookup (global_tags_compute host st).2.mapping k = dlookup st.mapping k :=
  gtf_mapping_frame _ _ _ _ hk

theorem gtc_mapping_matched (host : HostData) (st : PackState)
    (i : InstanceData) (hi : i ∈ host.instances) (hty : i.group.type = SCALAR)
    (p : Parameter) (hp : p ∈ i.group.parameters) (hix : p.indexing = true) :
    dlookup (global_tags_compute host st).2.mapping (compose_oid i.group p i) =
      none :=
  gtf_mapping_matched _ _ _ _ hi hty p hp hix

theorem ggt_mapping_none (host : HostData)
    (cache : Option (List (String × Value))) (st : PackState) (k : String)
    (h : dlookup st.mapping k = none) :
    dlookup (get_global_tags host cache st).2.2.mapping k = none := by
  cases cache with
  | some t => exact h
  | none =>
    rcases hE : global_tags_compute host st with ⟨t, st'⟩
    simp only [get_global_tags, hE]
    have := gtc_mapping_none host st k h
    rwa [hE] at this

theorem ggt_mapping_frame (host : HostData)
    (cache : Option (List (String × Value))) (st : PackState) (k : String)
    (hk : ∀ i ∈ host.instances, ∀ p ∈ i.group.parameters,
      compose_oid i.group p i ≠ k) :
    dlookup (get_global_tags host cache st).2.2.mapping k =
      dlookup st.mapping k := by
  cases cache with
  | some t => rfl
  | none =>
    rcases hE : global_tags_compute host st with ⟨t, st'⟩
    simp only [get_global_tags, hE]
    have := gtc_mapping_frame host st k hk
    rwa [hE] at this

theorem ggt_mapping_matched (host : HostData) (st : PackState)
    (i : InstanceData) (hi : i ∈ host.instances) (hty : i.group.type = SCALAR)
    (p : Parameter) (hp : p ∈ i.group.parameters) (hix : p.indexing = true) :
    dlookup (get_global_tags host none st).2.2.mapping
      (compose_oid i.group p i) = none := by
  rcases hE : global_tags_compute host st with ⟨t, st'⟩
  simp only [get_global_tags, hE]
  have := gtc_mapping_matched host st i hi hty p hp hix
  rwa [hE] at this

/-! ### Draining properties of `inst_tags` and `inst_fields` -/

theorem inst_tags_mapping_none (host : HostData) (inst : InstanceData)
    (cache : Option (List (String × Value))) (st : PackState) (k : String)
    (h : dlookup st.mapping k = none) :
    dlookup (inst_tags host inst cache st).2.2.mapping k = none := by
  rcases hG : get_global_tags host cache st with ⟨g, cache', st'⟩
  have hst' : dlookup st'.mapping k = none := by
    have := ggt_mapping_none host cache st k h
    rwa [hG] at this
  by_cases hty : inst.group.type = TABULAR
  · rcases hV : values_for_instance inst true st' with ⟨ps, st''⟩
    simp only [inst_tags, hG, hty, if_pos, hV]
    have := vfp_mapping_none inst true inst.group.parameters st' k hst'
    rwa [show values_for_params inst true inst.group.parameters st' =
      values_for_instance inst true st' from rfl, hV] at this
  · simp only [inst_tags, hG, hty, if_neg]
    exact hst'

theorem inst_tags_mapping_frame (host : HostData) (inst : InstanceData)
    (cache : Option (List (String × Value))) (st : PackState) (k : String)
    (hk : ∀ i ∈ host.instances, ∀ p ∈ i.group.parameters,
      compose_oid i.group p i ≠ k)
    (hki : ∀ p ∈ inst.group.parameters, compose_oid inst.group p inst ≠ k) :
    dlookup (inst_tags host inst cache st).2.2.mapping k =
      dlookup st.mapping k := by
  rcases hG : get_global_tags host cache st with ⟨g, cache', st'⟩
  have hst' : dlookup st'.mapping k = dlookup st.mapping k := by
    have := ggt_mapping_frame host cache st k hk
    rwa [hG] at this
  by_cases hty : inst.group.type = TABULAR
  · rcases hV : values_for_instance inst true st' with ⟨ps, st''⟩
    simp only [inst_tags, hG, hty, if_pos, hV]
    have := vfp_mapping_frame inst true inst.group.parameters st' k hki
    rw [show values_for_params inst true inst.group.parameters st' =
      values_for_instance inst true st' from rfl, hV] at this
    exact this.trans hst'
  · simp only [inst_tags, hG, hty, if_neg]
    exact hst'

theorem inst_tags_mapping_matched_tabular (host : HostData)
    (inst : InstanceData) (cache : Option (List (String × Value)))
    (st : PackState) (hty : inst.group.type = TABULAR) (p : Parameter)
    (hp : p ∈ inst.group.parameters) (hix : p.indexing = true) :
    dlookup (inst_tags host inst cache st).2.2.mapping
      (compose_oid inst.group p inst) = none := by
  rcases hG : get_global_tags host cache st with ⟨g, cache', st'⟩
  rcases hV : values_for_instance inst true st' with ⟨ps, st''⟩
  simp only [inst_tags, hG, hty, if_pos, hV]
  have := vfp_mapping_matched inst true inst.group.parameters st' p hp hix
  rwa [show values_for_params inst true inst.group.parameters st' =
    values_for_instance inst true st' from rfl, hV] at this

theorem inst_tags_mapping_matched_scalar (host : HostData)
    (inst : InstanceData) (st : PackState) (i : InstanceData)
    (hi : i ∈ host.instances) (hty : i.group.type = SCALAR) (p : Parameter)
    (hp : p ∈ i.group.parameters) (hix : p.indexing = true) :
    dlookup (inst_tags host inst none st).2.2.mapping
      (compose_oid i.group p i) = none := by
  rcases hG : get_global_tags host none st with ⟨g, cache', st'⟩
  have hst' : dlookup st'.mapping (compose_oid i.group p i) = none := by
    have := ggt_mapping_matched host st i hi hty p hp hix
    rwa [hG] at this
  by_cases htyi : inst.group.type = TABULAR
  · rcases hV : values_for_instance inst true st' with ⟨ps, st''⟩
    simp only [inst_tags, hG, htyi, if_pos, hV]
    have := vfp_mapping_none inst true inst.group.parameters st' _ hst'
    rwa [show values_for_params inst true inst.group.parameters st' =
      values_for_instance inst true st' from rfl, hV] at this
  · simp only [inst_tags, hG, htyi, if_neg]
    exact hst'

theorem inst_fields_mapping_none (inst : InstanceData) (st : PackState)
    (k : String) (h : dlookup st.mapping k = none) :
    dlookup (inst_fields inst st).2.mapping k = none := by
  rcases hV : values_for_instance inst false st with ⟨ps, st'⟩
  simp only [inst_fields, hV]
  have := vfp_mapping_none inst false inst.group.parameters st k h
  rwa [show values_for_params inst false inst.group.parameters st =
    values_for_instance inst false st from rfl, hV] at this

theorem inst_fields_mapping_frame (inst : InstanceData) (st : PackState)
    (k : String)
    (hki : ∀ p ∈ inst.group.parameters, compose_oid inst.group p inst ≠ k) :
    dlookup (inst_fields inst st).2.mapping k = dlookup st.mapping k := by
  rcases hV : values_for_instance inst false st with ⟨ps, st'⟩
  simp only [inst_fields, hV]
  have := vfp_mapping_frame inst false inst.group.parameters st k hki
  rwa [show values_for_params inst false inst.group.parameters st =
    values_for_instance inst false st from rfl, hV] at this

theorem inst_fields_mapping_matched (inst : InstanceData) (st : PackState)
    (p : Parameter) (hp : p ∈ inst.group.parameters)
    (hix : p.indexing = false) :
    dlookup (inst_fields inst st).2.mapping (compose_oid inst.group p inst) =
      none := by
  rcases hV : values_for_instance inst false st with ⟨ps, st'⟩
  simp only [inst_fields, hV]
  have := vfp_mapping_matched inst false inst.group.parameters st p hp hix
  rwa [show values_for_params inst false inst.group.parameters st =
    values_for_instance inst false st from rfl, hV] at this

/-! ### Draining properties of `pack_loop` -/

theorem pack_loop_state_cons (host : HostData) (tt : Int)
    (inst : InstanceData) (is_ : List InstanceData)
    (cache : Option (List (String × Value))) (st : PackState) :
    (pack_loop host tt (inst :: is_) cache st).2.2 =
      (pack_loop host tt is_
        (inst_tags host inst cache (inst_fields inst st).2).2.1
        (inst_tags host inst cache (inst_fields inst st).2).2.2).2.2 := by
  rcases hF : inst_fields inst st with ⟨fs, st₁⟩
  rcases hT : inst_tags host inst cache st₁ with ⟨tg, cache₁, st₂⟩
  rcases hP : pack_loop host tt is_ cache₁ st₂ with ⟨rest, cache₂, st₃⟩
  simp [pack_loop, hF, hT, hP]

theorem pack_loop_mapping_none (host : HostData) (tt : Int) :
    ∀ (is_ : List InstanceData) (cache : Option (List (String × Value)))
      (st : PackState) (k : String), dlookup st.mapping k = none →
      dlookup (pack_loop host tt is_ cache st).2.2.mapping k = none := by
  intro is_
  induction is_ with
  | nil => intro cache st k h; exact h
  | cons inst is_ ih =>
    intro cache st k h
    rw [pack_loop_state_cons]
    exact ih _ _ k (inst_tags_mapping_none _ _ _ _ k
      (inst_fields_mapping_none _ _ k h))

theorem pack_loop_mapping_frame (host : HostData) (tt : Int) :
    ∀ (is_ : List InstanceData) (cache : Option (List (String × Value)))
      (st : PackState) (k : String),
      (∀ i ∈ host.instances, ∀ p ∈ i.group.parameters,
        compose_oid i.group p i ≠ k) →
      (∀ i ∈ is_, i ∈ host.instances) →
      dlookup (pack_loop host tt is_ cache st).2.2.mapping k =
        dlookup st.mapping k := by
  intro is_
  induction is_ with
  | nil => intro cache st k _ _; rfl
  | cons inst is_ ih =>
    intro cache st k hk his
    have hki : ∀ p ∈ inst.group.parameters, compose_oid inst.group p inst ≠ k :=
      fun p hp => hk inst (his inst (by simp)) p hp
    rw [pack_loop_state_cons,
      ih _ _ k hk (fun i hi => his i (by simp [hi])),
      inst_tags_mapping_frame _ _ _ _ k hk hki,
      inst_fields_mapping_frame _ _ k hki]

theorem pack_loop_matched_nonidx (host : HostData) (tt : Int) :
    ∀ (is_ : List InstanceData) (cache : Option (List (String × Value)))
      (st : PackState) (i : InstanceData) (p : Parameter), i ∈ is_ →
      p ∈ i.group.parameters → p.indexing = false →
      dlookup (pack_loop host tt is_ cache st).2.2.mapping
        (compose_oid i.group p i) = none := by
  intro is_
  induction is_ with
  | nil => intro cache st i p hi; exact absurd hi (List.not_mem_nil i)
  | cons inst is_ ih =>
    intro cache st i p hi hp hix
    rw [pack_loop_state_cons]
    rcases List.mem_cons.mp hi with e | e
    · subst e
      exact pack_loop_mapping_none _ _ _ _ _ _
        (inst_tags_mapping_none _ _ _ _ _
          (inst_fields_mapping_matched _ _ p hp hix))
    · exact ih _ _ i p e hp hix

theorem pack_loop_matched_tab (host : HostData) (tt : Int) :
    ∀ (is_ : List InstanceData) (cache : Option (List (String × Value)))
      (st : PackState) (i : InstanceData) (p : Parameter), i ∈ is_ →
      i.group.type = TABULAR → p ∈ i.group.parameters → p.indexing = true →
      dlookup (pack_loop host tt is_ cache st).2.2.mapping
        (compose_oid i.group p i) = none := by
  intro is_
  induction is_ with
  | nil => intro cache st i p hi; exact absurd hi (List.not_mem_nil i)
  | cons inst is_ ih =>
    intro cache st i p hi hty hp hix
    rw [pack_loop_state_cons]
    rcases List.mem_cons.mp hi with e | e
    · subst e
      exact pack_loop_mapping_none _ _ _ _ _ _
        (inst_tags_mapping_matched_tabular _ _ _ _ hty p hp hix)
    · exact ih _ _ i p e hty hp hix

theorem pack_loop_matched_scalar (host : HostData) (tt : Int)
    (is_ : List InstanceData) (st : PackState) (i : InstanceData)
    (p : Parameter) (hne : is_ ≠ []) (hi : i ∈ host.instances)
    (hty : i.group.type = SCALAR) (hp : p ∈ i.group.parameters)
    (hix : p.indexing = true) :
    dlookup (pack_loop host tt is_ none st).2.2.mapping
      (compose_oid i.group p i) = none := by
  cases is_ with
  | nil => exact absurd rfl hne
  | cons inst is_ =>
    rw [pack_loop_state_cons]
    exact pack_loop_mapping_none _ _ _ _ _ _
      (inst_tags_mapping_matched_scalar _ _ _ i hi hty p hp hix)

theorem mem_schemaOids {h : HostData} {k : String} :
    k ∈ schemaOids h ↔
      ∃ i ∈ h.instances, ∃ p ∈ i.group.parameters,
        compose_oid i.group p i = k := by
  simp [schemaOids]

theorem pack_loop_drains (host : HostData) (tt : Int) (st : PackState)
    (k : String) :
    dlookup (pack_loop host tt host.instances none st).2.2.mapping k =
      if k ∈ schemaOids host then none else dlookup st.mapping k := by
  by_cases hks : k ∈ schemaOids host
  · rw [if_pos hks]
    obtain ⟨i, hi, p, hp, hk⟩ := mem_schemaOids.mp hks
    subst hk
    cases hix : p.indexing with
    | false => exact pack_loop_matched_nonidx _ _ _ _ _ i p hi hp hix
    | true =>
      cases hty : i.group.type with
      | false =>
        have hne : host.instances ≠ [] := by
          intro e; rw [e] at hi; exact List.not_mem_nil i hi
        exact pack_loop_matched_scalar _ _ _ _ i p hne hi hty hp hix
      | true => exact pack_loop_matched_tab _ _ _ _ _ i p hi hty hp hix
  · rw [if_neg hks]
    apply pack_loop_mapping_frame _ _ _ _ _ _ _ (fun i hi => hi)
    intro i hi p hp he
    exact hks (mem_schemaOids.mpr ⟨i, hi, p, hp, he⟩)

theorem add_samples_found (sch : List HostData) (samples : Samples)
    (n : String) (ts : Rat) (h : HostData) (hfind : findHost sch n = some h) :
    add_samples sch samples n ts =
      { points := (pack_loop h (minuteBucket ts) h.instances none
          (init_state h samples)).1,
        writes :=
          if (pack_loop h (minuteBucket ts) h.instances none
              (init_state h samples)).1 = [] then []
          else [(pack_loop h (minuteBucket ts) h.instances none
              (init_state h samples)).1],
        log :=
          if (pack_loop h (minuteBucket ts) h.instances none
              (init_state h samples)).2.2.mapping.map Prod.fst = [] then
            (pack_loop h (minuteBucket ts) h.instances none
              (init_state h samples)).2.2.log
          else
            (pack_loop h (minuteBucket ts) h.instances none
              (init_state h samples)).2.2.log ++
              [LogEntry.notIndexedFields
                ((pack_loop h (minuteBucket ts) h.instances none
                  (init_state h samples)).2.2.mapping.map Prod.fst) h.name],
        mapping := (pack_loop h (minuteBucket ts) h.instances none
          (init_state h samples)).2.2.mapping } := by
  rcases samples with cs | rows
  · rcases hP : pack_loop h (minuteBucket ts) h.instances none
        (init_state h (Samples.snmp cs)) with ⟨pts, c, st⟩
    simp only [add_samples, hfind, init_state] at hP ⊢
    rw [hP]
  · rcases hP : pack_loop h (minuteBucket ts) h.instances none
        (init_state h (Samples.http rows)) with ⟨pts, c, st⟩
    simp only [add_samples, hfind, init_state] at hP ⊢
    rw [hP]

theorem add_samples_not_found (sch : List HostData) (samples : Samples)
    (n : String) (ts : Rat) (hfind : findHost sch n = none) :
    add_samples sch samples n ts =
      { points := [], writes := [], log := [LogEntry.hostNotFound n],
        mapping := [] } := by
  simp only [add_samples, hfind]

theorem pack_loop_points_fields (host : HostData) (tt : Int) :
    ∀ (is_ : List InstanceData) (cache : Option (List (String × Value)))
      (st : PackState) (pt : Point),
      pt ∈ (pack_loop host tt is_ cache st).1 → pt.fields ≠ [] := by
  intro is_
  induction is_ with
  | nil => intro cache st pt hpt; exact absurd hpt (List.not_mem_nil pt)
  | cons inst is_ ih =>
    intro cache st pt hpt
    rcases hF : inst_fields inst st with ⟨fs, st₁⟩
    rcases hT : inst_tags host inst cache st₁ with ⟨tg, cache₁, st₂⟩
    rcases hP : pack_loop host tt is_ cache₁ st₂ with ⟨rest, cache₂, st₃⟩
    simp only [pack_loop, hF, hT, hP] at hpt
    by_cases hfs : fs = []
    · rw [if_pos hfs] at hpt
      exact ih cache₁ st₂ pt (by rw [hP]; exact hpt)
    · rw [if_neg hfs] at hpt
      rcases List.mem_cons.mp hpt with e | e
      · rw [e]; exact hfs
      · exact ih cache₁ st₂ pt (by rw [hP]; exact e)

/-! ### Congruence: the engine observes the mapping only through lookups -/

theorem values_for_instance_def (inst : InstanceData) (ix : Bool)
    (st : PackState) :
    values_for_instance inst ix st =
      values_for_params inst ix inst.group.parameters st := rfl

theorem inst_tags_eq_tabular (host : HostData) (inst : InstanceData)
    (cache : Option (List (String × Value))) (st : PackState)
    (hty : inst.group.type = TABULAR) :
    inst_tags host inst cache st =
      (dinsert
          (updateDict (get_global_tags host cache st).1
            (values_for_instance inst true
              (get_global_tags host cache st).2.2).1)
          "instance" (Value.s inst.name),
       (get_global_tags host cache st).2.1,
       (values_for_instance inst true (get_global_tags host cache st).2.2).2) := by
  rcases hG : get_global_tags host cache st with ⟨g, c, s⟩
  rcases hV : values_for_instance inst true s with ⟨ps, s'⟩
  simp [inst_tags, hG, hty, hV]

theorem inst_tags_eq_scalar (host : HostData) (inst : InstanceData)
    (cache : Option (List (String × Value))) (st : PackState)
    (hty : ¬ inst.group.type = TABULAR) :
    inst_tags host inst cache st =
      ((get_global_tags host cache st).1, (get_global_tags host cache st).2.1,
       (get_global_tags host cache st).2.2) := by
  rcases hG : get_global_tags host cache st with ⟨g, c, s⟩
  simp [inst_tags, hG, hty]

theorem inst_fields_eq (inst : InstanceData) (st : PackState) :
    inst_fields inst st =
      (buildDict (values_for_instance inst false st).1,
       (values_for_instance inst false st).2) := by
  rcases hV : values_for_instance inst false st with ⟨ps, s⟩
  simp [inst_fields, hV]

theorem pack_loop_cons_eq (host : HostData) (tt : Int) (inst : InstanceData)
    (is_ : List InstanceData) (cache : Option (List (String × Value)))
    (st : PackState) :
    pack_loop host tt (inst :: is_) cache st =
      ((if (inst_fields inst st).1 = [] then
          (pack_loop host tt is_
            (inst_tags host inst cache (inst_fields inst st).2).2.1
            (inst_tags host inst cache (inst_fields inst st).2).2.2).1
        else
          { measurement := inst.group.name, time := tt,
            fields := (inst_fields inst st).1,
            tags := (inst_tags host inst cache (inst_fields inst st).2).1 } ::
            (pack_loop host tt is_
              (inst_tags host inst cache (inst_fields inst st).2).2.1
              (inst_tags host inst cache (inst_fields inst st).2).2.2).1),
       (pack_loop host tt is_
         (inst_tags host inst cache (inst_fields inst st).2).2.1
         (inst_tags host inst cache (inst_fields inst st).2).2.2).2.1,
       (pack_loop host tt is_
         (inst_tags host inst cache (inst_fields inst st).2).2.1
         (inst_tags host inst cache (inst_fields inst st).2).2.2).2.2) := by
  rcases hF : inst_fields inst st with ⟨fs, st₁⟩
  rcases hT : inst_tags host inst cache st₁ with ⟨tg, cache₁, st₂⟩
  rcases hP : pack_loop host tt is_ cache₁ st₂ with ⟨rest, cache₂, st₃⟩
  simp [pack_loop, hF, hT, hP]

theorem vfp_congr (inst : InstanceData) (ix : Bool) :
    ∀ (ps : List Parameter) (st st' : PackState), StEq st st' →
      (values_for_params inst ix ps st).1 =
        (values_for_params inst ix ps st').1 ∧
      StEq (values_for_params inst ix ps st).2
        (values_for_params inst ix ps st').2 := by
  intro ps
  induction ps with
  | nil => intro st st' h; rw [vfp_nil, vfp_nil]; exact ⟨rfl, h⟩
  | cons p ps ih =>
    intro st st' h
    cases hl : dlookup st.mapping (compose_oid inst.group p inst) with
    | none =>
      have hl' : dlookup st'.mapping (compose_oid inst.group p inst) = none := by
        rw [← h.1 _]; exact hl
      rw [vfp_cons_absent _ _ _ _ _ hl, vfp_cons_absent _ _ _ _ _ hl']
      exact ih st st' h
    | some v =>
      have hl' : dlookup st'.mapping (compose_oid inst.group p inst) = some v := by
        rw [← h.1 _]; exact hl
      by_cases hix : p.indexing = ix
      · have hrem : StEq
            { st with
              mapping := dremove st.mapping (compose_oid inst.group p inst) }
            { st' with
              mapping := dremove st'.mapping (compose_oid inst.group p inst) } := by
          refine ⟨fun k' => ?_, h.2⟩
          rw [dlookup_dremove, dlookup_dremove]
          split
          · rfl
          · exact h.1 k'
        cases hc : cast_value p.type v with
        | none =>
          rw [vfp_cons_castfail _ _ _ _ _ _ hl hix hc,
            vfp_cons_castfail _ _ _ _ _ _ hl' hix hc]
          apply ih
          exact ⟨hrem.1, by rw [h.2]⟩
        | some w =>
          rw [vfp_cons_castok _ _ _ _ _ _ _ hl hix hc,
            vfp_cons_castok _ _ _ _ _ _ _ hl' hix hc]
          have hr := ih _ _ hrem
          exact ⟨by rw [hr.1], hr.2⟩
      · rw [vfp_cons_skip _ _ _ _ _ _ hl hix, vfp_cons_skip _ _ _ _ _ _ hl' hix]
        exact ih st st' h

theorem gtf_congr :
    ∀ (is_ : List InstanceData) (t : List (String × Value))
      (st st' : PackState), StEq st st' →
      (global_tags_fold is_ t st).1 = (global_tags_fold is_ t st').1 ∧
      StEq (global_tags_fold is_ t st).2 (global_tags_fold is_ t st').2 := by
  intro is_
  induction is_ with
  | nil => intro t st st' h; rw [gtf_nil, gtf_nil]; exact ⟨rfl, h⟩
  | cons i is_ ih =>
    intro t st st' h
    by_cases hty : i.group.type = SCALAR
    · rw [gtf_cons_scalar _ _ _ _ hty, gtf_cons_scalar _ _ _ _ hty]
      have hv := vfp_congr i true i.group.parameters st st' h
      rw [← values_for_instance_def, ← values_for_instance_def] at hv
      rw [hv.1]
      exact ih _ _ _ hv.2
    · rw [gtf_cons_tabular _ _ _ _ hty, gtf_cons_tabular _ _ _ _ hty]
      exact ih _ _ _ h

theorem gtc_congr (host : HostData) (st st' : PackState) (h : StEq st st') :
    (global_tags_compute host st).1 = (global_tags_compute host st').1 ∧
    StEq (global_tags_compute host st).2 (global_tags_compute host st').2 :=
  gtf_congr _ _ _ _ h

theorem ggt_congr (host : HostData) (cache : Option (List (String × Value)))
    (st st' : PackState) (h : StEq st st') :
    (get_global_tags host cache st).1 = (get_global_tags host cache st').1 ∧
    (get_global_tags host cache st).2.1 =
      (get_global_tags host cache st').2.1 ∧
    StEq (get_global_tags host cache st).2.2
      (get_global_tags host cache st').2.2 := by
  cases cache with
  | some t => exact ⟨rfl, rfl, h⟩
  | none =>
    have hg := gtc_congr host st st' h
    rcases hE : global_tags_compute host st with ⟨t, s⟩
    rcases hE' : global_tags_compute host st' with ⟨t', s'⟩
    rw [hE, hE'] at hg
    simp only at hg
    simp only [get_global_tags, hE, hE']
    exact ⟨hg.1, by rw [hg.1], hg.2⟩

theorem inst_tags_congr (host : HostData) (inst : InstanceData)
    (cache : Option (List (String × Value))) (st st' : PackState)
    (h : StEq st st') :
    (inst_tags host inst cache st).1 = (inst_tags host inst cache st').1 ∧
    (inst_tags host inst cache st).2.1 = (inst_tags host inst cache st').2.1 ∧
    StEq (inst_tags host inst cache st).2.2
      (inst_tags host inst cache st').2.2 := by
  have hg := ggt_congr host cache st st' h
  by_cases hty : inst.group.type = TABULAR
  · rw [inst_tags_eq_tabular _ _ _ _ hty, inst_tags_eq_tabular _ _ _ _ hty]
    have hv := vfp_congr inst true inst.group.parameters _ _ hg.2.2
    rw [← values_for_instance_def, ← values_for_instance_def] at hv
    refine ⟨?_, hg.2.1, hv.2⟩
    rw [hg.1, hv.1]
  · rw [inst_tags_eq_scalar _ _ _ _ hty, inst_tags_eq_scalar _ _ _ _ hty]
    exact ⟨hg.1, hg.2.1, hg.2.2⟩

theorem inst_fields_congr (inst : InstanceData) (st st' : PackState)
    (h : StEq st st') :
    (inst_fields inst st).1 = (inst_fields inst st').1 ∧
    StEq (inst_fields inst st).2 (inst_fields inst st').2 := by
  have hv := vfp_congr inst false inst.group.parameters st st' h
  rw [← values_for_instance_def, ← values_for_instance_def] at hv
  rw [inst_fields_eq, inst_fields_eq]
  exact ⟨by rw [hv.1], hv.2⟩

theorem pack_loop_congr (host : HostData) (tt : Int) :
    ∀ (is_ : List InstanceData) (cache : Option (List (String × Value)))
      (st st' : PackState), StEq st st' →
      (pack_loop host tt is_ cache st).1 =
        (pack_loop host tt is_ cache st').1 ∧
      StEq (pack_loop host tt is_ cache st).2.2
        (pack_loop host tt is_ cache st').2.2 := by
  intro is_
  induction is_ with
  | nil => intro cache st st' h; exact ⟨rfl, h⟩
  | cons inst is_ ih =>
    intro cache st st' h
    have hf := inst_fields_congr inst st st' h
    have ht := inst_tags_congr host inst cache _ _ hf.2
    have hp := ih (inst_tags host inst cache (inst_fields inst st).2).2.1 _ _
      ht.2.2
    rw [pack_loop_cons_eq, pack_loop_cons_eq]
    constructor
    · rw [hp.1, ht.2.1, ht.1, hf.1]
    · rw [← ht.2.1]
      exact hp.2

theorem dlookup_perm {α : Type} (l₁ l₂ : List (String × α)) (hp : l₁.Perm l₂)
    (hn : (l₁.map Prod.fst).Nodup) (k : String) :
    dlookup l₁ k = dlookup l₂ k := by
  have hn₂ : (l₂.map Prod.fst).Nodup := ((hp.map Prod.fst).nodup_iff).mp hn
  cases h : dlookup l₁ k with
  | some v =>
    rw [(dlookup_eq_some_iff_mem l₂ hn₂ k v).mpr
      (hp.mem_iff.mp ((dlookup_eq_some_iff_mem l₁ hn k v).mp h))]
  | none =>
    have hnm := (dlookup_eq_none_iff l₁ k).mp h
    rw [(dlookup_eq_none_iff l₂ k).mpr
      (fun hm => hnm ((hp.map Prod.fst).mem_iff.mpr hm))]

theorem dlookup_reverse {α : Type} (l : List (String × α))
    (hn : (l.map Prod.fst).Nodup) (k : String) :
    dlookup l.reverse k = dlookup l k :=
  dlookup_perm l.reverse l (List.reverse_perm l) (by simpa using hn) k

theorem snmp_mapping_lookup (cs : List (List (String × Value)))
    (hn : (cs.flatten.map Prod.fst).Nodup) (k : String) :
    dlookup (snmp_mapping cs) k = dlookup cs.flatten k := by
  rw [snmp_mapping, dlookup_buildDict, dlookup_reverse _ hn]

theorem gtf_eq_updateDict :
    ∀ (is_ : List InstanceData) (t : List (String × Value)) (st : PackState),
      (global_tags_fold is_ t st).1 = updateDict t (scalar_pairs is_ st).1 ∧
      (global_tags_fold is_ t st).2 = (scalar_pairs is_ st).2 := by
  intro is_
  induction is_ with
  | nil => intro t st; rw [gtf_nil]; exact ⟨rfl, rfl⟩
  | cons i is_ ih =>
    intro t st
    by_cases hty : i.group.type = SCALAR
    · rw [gtf_cons_scalar _ _ _ _ hty]
      have hi := ih (updateDict t (values_for_instance i true st).1)
        (values_for_instance i true st).2
      rw [hi.1, hi.2]
      constructor
      · rw [scalar_pairs, if_pos hty, ← updateDict_append]
      · rw [scalar_pairs, if_pos hty]
    · rw [gtf_cons_tabular _ _ _ _ hty]
      have hi := ih t st
      rw [hi.1, hi.2, scalar_pairs, if_neg hty]
      exact ⟨rfl, rfl⟩

theorem global_tags_lookup (host : HostData) (st : PackState) (k : String) :
    dlookup (global_tags_compute host st).1 k =
      optOr (dlookup (scalar_pairs host.instances st).1.reverse k)
        (dlookup
          (dinsert
            (buildDict (host.tag_values.map (fun tv => (tv.1, Value.s tv.2))))
            "host" (Value.s host.name)) k) := by
  rw [global_tags_compute, (gtf_eq_updateDict host.instances _ st).1,
    dlookup_updateDict]

/-! ### Chunking lemmas -/

theorem chunksFuel_nil {α : Type} (fuel : Nat) :
    chunksFuel fuel ([] : List α) = [] := by
  cases fuel <;> rfl

theorem chunksFuel_cons {α : Type} (fuel : Nat) (l : List α) (hl : l ≠ []) :
    chunksFuel (fuel + 1) l =
      l.take SNMP_MAX_PARAMETERS_IN_QUERY ::
        chunksFuel fuel (l.drop SNMP_MAX_PARAMETERS_IN_QUERY) := by
  cases l with
  | nil => exact absurd rfl hl
  | cons x xs => rfl

theorem chunksFuel_flatten {α : Type} :
    ∀ (fuel : Nat) (l : List α), l.length ≤ fuel →
      (chunksFuel fuel l).flatten = l := by
  intro fuel
  induction fuel with
  | zero =>
    intro l h
    have : l = [] := List.eq_nil_of_length_eq_zero (Nat.le_zero.mp h)
    subst this; rfl
  | succ f ih =>
    intro l h
    cases l with
    | nil => rfl
    | cons x xs =>
      have hd : (List.drop SNMP_MAX_PARAMETERS_IN_QUERY (x :: xs)).length ≤ f := by
        rw [List.length_drop, show SNMP_MAX_PARAMETERS_IN_QUERY = 32 from rfl]
        simp only [List.length_cons] at h ⊢
        omega
      rw [chunksFuel_cons f (x :: xs) (by simp), List.flatten_cons, ih _ hd]
      exact List.take_append_drop _ _

theorem chunksFuel_length_le {α : Type} :
    ∀ (fuel : Nat) (l : List α) (c : List α), l.length ≤ fuel →
      c ∈ chunksFuel fuel l → c.length ≤ SNMP_MAX_PARAMETERS_IN_QUERY := by
  intro fuel
  induction fuel with
  | zero =>
    intro l c h hc
    have : l = [] := List.eq_nil_of_length_eq_zero (Nat.le_zero.mp h)
    subst this
    simp [chunksFuel_nil] at hc
  | succ f ih =>
    intro l c h hc
    cases l with
    | nil => simp [chunksFuel_nil] at hc
    | cons x xs =>
      rw [chunksFuel_cons f (x :: xs) (by simp)] at hc
      have hd : (List.drop SNMP_MAX_PARAMETERS_IN_QUERY (x :: xs)).length ≤ f := by
        rw [List.length_drop, show SNMP_MAX_PARAMETERS_IN_QUERY = 32 from rfl]
        simp only [List.length_cons] at h ⊢
        omega
      rcases List.mem_cons.mp hc with e | e
      · rw [e, List.length_take]
        exact Nat.min_le_left _ _
      · exact ih _ c hd e

theorem chunksFuel_full {α : Type} :
    ∀ (fuel : Nat) (l : List α), l.length ≤ fuel →
      ∀ (i : Nat) (hi : i + 1 < (chunksFuel fuel l).length),
        ((chunksFuel fuel l).get ⟨i, Nat.lt_of_succ_lt hi⟩).length =
          SNMP_MAX_PARAMETERS_IN_QUERY := by
  intro fuel
  induction fuel with
  | zero =>
    intro l h i hi
    have : l = [] := List.eq_nil_of_length_eq_zero (Nat.le_zero.mp h)
    subst this
    simp [chunksFuel_nil] at hi
  | succ f ih =>
    intro l h i hi
    cases l with
    | nil => simp [chunksFuel_nil] at hi
    | cons x xs =>
      have he := chunksFuel_cons f (x :: xs) (by simp)
      have hd : ((x :: xs).drop SNMP_MAX_PARAMETERS_IN_QUERY).length ≤ f := by
        rw [List.length_drop, show SNMP_MAX_PARAMETERS_IN_QUERY = 32 from rfl]
        simp only [List.length_cons] at h ⊢
        omega
      have hi' : i + 1 <
          (List.take SNMP_MAX_PARAMETERS_IN_QUERY (x :: xs) ::
            chunksFuel f (List.drop SNMP_MAX_PARAMETERS_IN_QUERY (x :: xs))).length := by
        rw [← he]; exact hi
      rw [List.get_of_eq he]
      cases i with
      | zero =>
        simp only [List.get, List.length_take]
        have hne : chunksFuel f (List.drop SNMP_MAX_PARAMETERS_IN_QUERY (x :: xs))
            ≠ [] := by
          intro e
          rw [e] at hi'
          simp at hi'
        have hdne : List.drop SNMP_MAX_PARAMETERS_IN_QUERY (x :: xs) ≠ [] := by
          intro e
          rw [e, chunksFuel_nil] at hne
          exact hne rfl
        have hlen : SNMP_MAX_PARAMETERS_IN_QUERY < (x :: xs).length := by
          by_contra hle
          push_neg at hle
          exact hdne (List.drop_eq_nil_of_le hle)
        exact Nat.min_eq_left (Nat.le_of_lt hlen)
      | succ j =>
        simp only [List.get]
        have hj : j + 1 <
            (chunksFuel f (List.drop SNMP_MAX_PARAMETERS_IN_QUERY (x :: xs))).length := by
          simp only [List.length_cons] at hi'
          omega
        exact ih _ hd j hj

theorem chunks_flatten {α : Type} (l : List α) : (chunks l).flatten = l :=
  chunksFuel_flatten l.length l (Nat.le_refl _)

theorem chunks_length_le {α : Type} (l : List α) (c : List α)
    (hc : c ∈ chunks l) : c.length ≤ SNMP_MAX_PARAMETERS_IN_QUERY :=
  chunksFuel_length_le l.length l c (Nat.le_refl _) hc

theorem chunks_full {α : Type} (l : List α) (i : Nat)
    (hi : i + 1 < (chunks l).length) :
    ((chunks l).get ⟨i, Nat.lt_of_succ_lt hi⟩).length =
      SNMP_MAX_PARAMETERS_IN_QUERY :=
  chunksFuel_full l.length l (Nat.le_refl _) i hi

/-! ### Nested-tree lemmas for the push-origin path -/

theorem tlookup_nil (p i : String) : tlookup [] p i = none := rfl

theorem tlookup_cons (q : String × List (String × Value)) (t : Tree)
    (p i : String) :
    tlookup (q :: t) p i =
      if q.1 = p then dlookup q.2 i else tlookup t p i := by
  by_cases h : q.1 = p <;> simp [tlookup, List.find?_cons, h]

theorem tlookup_tinsert (t : Tree) (p i : String) (v : Value)
    (p' i' : String) :
    tlookup (tinsert t p i v) p' i' =
      if p' = p ∧ i' = i then some v else tlookup t p' i' := by
  induction t with
  | nil =>
    rw [tinsert, tlookup_cons]
    by_cases hp : p' = p
    · subst hp
      rw [if_pos rfl, dlookup_cons]
      by_cases hi : i' = i
      · subst hi; simp
      · have hi' : ¬ i = i' := fun e => hi e.symm
        simp [hi, hi', tlookup_nil]
    · have hp' : ¬ p = p' := fun e => hp e.symm
      simp [hp, hp', tlookup_nil]
  | cons q t ih =>
    by_cases hq : q.1 = p
    · rw [tinsert, if_pos hq, tlookup_cons, tlookup_cons]
      by_cases hp : p' = p
      · subst hp
        have hq' : q.1 = p' := hq
        rw [if_pos rfl, if_pos hq', dlookup_dinsert]
        by_cases hi : i' = i
        · simp [hi]
        · simp [hi]
      · have h₁ : ¬ p = p' := fun e => hp e.symm
        have h₂ : ¬ q.1 = p' := fun e => hp (e.symm.trans hq)
        simp [h₁, h₂, hp]
    · rw [tinsert, if_neg hq, tlookup_cons, tlookup_cons]
      by_cases hqp : q.1 = p'
      · have hp : ¬ p' = p := fun e => hq (hqp.trans e)
        simp [hqp, hp]
      · rw [if_neg hqp, if_neg hqp, ih]

theorem tlookup_tremove (t : Tree) (p i : String) (p' i' : String) :
    tlookup (tremove t p i) p' i' =
      if p' = p ∧ i' = i then none else tlookup t p' i' := by
  induction t with
  | nil =>
    rw [tremove, tlookup_nil]
    split <;> rfl
  | cons q t ih =>
    by_cases hq : q.1 = p
    · rw [tremove, if_pos hq, tlookup_cons, tlookup_cons]
      by_cases hp : p' = p
      · subst hp
        have hq' : q.1 = p' := hq
        rw [if_pos hq', if_pos hq', dlookup_dremove]
        by_cases hi : i' = i
        · simp [hi]
        · simp [hi]
      · have h₂ : ¬ q.1 = p' := fun e => hp (e.symm.trans hq)
        simp [h₂, hp]
    · rw [tremove, if_neg hq, tlookup_cons, tlookup_cons]
      by_cases hqp : q.1 = p'
      · have hp : ¬ p' = p := fun e => hq (hqp.trans e)
        simp [hqp, hp]
      · rw [if_neg hqp, if_neg hqp, ih]

theorem tpop_fst (t : Tree) (p i : String) :
    (tpop t p i).1 = tlookup t p i := by
  cases h : tlookup t p i <;> simp [tpop, h]

theorem tpop_snd_lookup (t : Tree) (p i : String) (p' i' : String) :
    tlookup (tpop t p i).2 p' i' =
      if p' = p ∧ i' = i then none else tlookup t p' i' := by
  cases h : tlookup t p i with
  | some v => simp [tpop, h, tlookup_tremove]
  | none =>
    simp only [tpop, h]
    split
    · rename_i he
      rw [he.1, he.2]
      exact h
    · rfl

theorem keys_dinsert {α : Type} (m : List (String × α)) (k : String) (v : α) :
    (dinsert m k v).map Prod.fst =
      if k ∈ m.map Prod.fst then m.map Prod.fst else m.map Prod.fst ++ [k] := by
  induction m with
  | nil => simp [dinsert]
  | cons q m ih =>
    by_cases hq : q.1 = k
    · rw [dinsert, if_pos hq]
      simp [hq]
    · rw [dinsert, if_neg hq]
      have hne : ¬ k = q.1 := fun e => hq e.symm
      by_cases hk : k ∈ m.map Prod.fst
      · simp only [List.map_cons, ih, if_pos hk]
        rw [if_pos (by simp [hk])]
      · simp only [List.map_cons, ih, if_neg hk]
        rw [if_neg (by simp [hne, hk])]
        simp

theorem nodup_keys_dinsert {α : Type} (m : List (String × α)) (k : String)
    (v : α) (hn : (m.map Prod.fst).Nodup) :
    ((dinsert m k v).map Prod.fst).Nodup := by
  rw [keys_dinsert]
  split
  · exact hn
  · rename_i hk
    simp [List.nodup_append, hn, hk]

theorem keys_tinsert (t : Tree) (p i : String) (v : Value) :
    (tinsert t p i v).map Prod.fst =
      if p ∈ t.map Prod.fst then t.map Prod.fst else t.map Prod.fst ++ [p] := by
  induction t with
  | nil => simp [tinsert]
  | cons q t ih =>
    by_cases hq : q.1 = p
    · rw [tinsert, if_pos hq]
      simp [hq]
    · rw [tinsert, if_neg hq]
      have hne : ¬ p = q.1 := fun e => hq e.symm
      by_cases hk : p ∈ t.map Prod.fst
      · simp only [List.map_cons, ih, if_pos hk]
        rw [if_pos (by simp [hk])]
      · simp only [List.map_cons, ih, if_neg hk]
        rw [if_neg (by simp [hne, hk])]
        simp

theorem tinsert_WF (t : Tree) (p i : String) (v : Value) (h : TreeWF t) :
    TreeWF (tinsert t p i v) := by
  constructor
  · rw [keys_tinsert]
    split
    · exact h.1
    · rename_i hk
      simp [List.nodup_append, h.1, hk]
  · intro q hq
    induction t with
    | nil =>
      rw [tinsert] at hq
      rcases List.mem_cons.mp hq with e | e
      · rw [e]; simp
      · exact absurd e (List.not_mem_nil q)
    | cons r t ih =>
      by_cases hr : r.1 = p
      · rw [tinsert, if_pos hr] at hq
        rcases List.mem_cons.mp hq with e | e
        · rw [e]
          exact nodup_keys_dinsert _ _ _ (h.2 r (by simp))
        · exact h.2 q (by simp [e])
      · rw [tinsert, if_neg hr] at hq
        rcases List.mem_cons.mp hq with e | e
        · exact h.2 q (by rw [e]; simp)
        · exact ih ⟨(List.nodup_cons.mp h.1).2,
            fun q' hq' => h.2 q' (by simp [hq'])⟩ e

theorem samples_tree_WF (samples : List (String × String × Value)) :
    TreeWF (samples_tree samples) := by
  rw [samples_tree]
  have : ∀ (l : List (String × String × Value)) (t : Tree), TreeWF t →
      TreeWF (l.foldl (fun t s => tinsert t s.1 s.2.1 s.2.2) t) := by
    intro l
    induction l with
    | nil => intro t h; exact h
    | cons s l ih => intro t h; exact ih _ (tinsert_WF _ _ _ _ h)
  exact this samples [] ⟨by simp, by simp⟩

theorem keys_tremove (t : Tree) (p i : String) :
    (tremove t p i).map Prod.fst = t.map Prod.fst := by
  induction t with
  | nil => rfl
  | cons q t ih =>
    by_cases hq : q.1 = p
    · rw [tremove, if_pos hq]; simp
    · rw [tremove, if_neg hq]; simp [ih]

theorem dremove_keys_sublist {α : Type} (m : List (String × α)) (k : String) :
    ((dremove m k).map Prod.fst).Sublist (m.map Prod.fst) :=
  List.Sublist.map Prod.fst (List.filter_sublist m)

theorem tremove_WF (t : Tree) (p i : String) (h : TreeWF t) :
    TreeWF (tremove t p i) := by
  constructor
  · rw [keys_tremove]; exact h.1
  · intro q hq
    induction t with
    | nil => exact absurd hq (List.not_mem_nil q)
    | cons r t ih =>
      by_cases hr : r.1 = p
      · rw [tremove, if_pos hr] at hq
        rcases List.mem_cons.mp hq with e | e
        · rw [e]
          exact (dremove_keys_sublist r.2 i).nodup (h.2 r (by simp))
        · exact h.2 q (by simp [e])
      · rw [tremove, if_neg hr] at hq
        rcases List.mem_cons.mp hq with e | e
        · exact h.2 q (by rw [e]; simp)
        · exact ih ⟨(List.nodup_cons.mp h.1).2,
            fun q' hq' => h.2 q' (by simp [hq'])⟩ e

theorem tpop_WF (t : Tree) (p i : String) (h : TreeWF t) :
    TreeWF (tpop t p i).2 := by
  cases hl : tlookup t p i with
  | some v => simp only [tpop, hl]; exact tremove_WF t p i h
  | none => simp only [tpop, hl]; exact h

theorem TreeWF_tail (q : String × List (String × Value)) (t : Tree)
    (h : TreeWF (q :: t)) : TreeWF t ∧ q.1 ∉ t.map Prod.fst := by
  have hn := h.1
  simp only [List.map_cons, List.nodup_cons] at hn
  exact ⟨⟨hn.2, fun q' hq' => h.2 q' (by simp [hq'])⟩, hn.1⟩

theorem dremove_cons {α : Type} (r : String × α) (l : List (String × α))
    (k : String) :
    dremove (r :: l) k = if r.1 = k then dremove l k else r :: dremove l k := by
  rw [dremove, List.filter_cons]
  by_cases hr : r.1 = k
  · rw [if_neg (by simp [hr]), if_pos hr]; rfl
  · rw [if_pos (by simp [hr]), if_neg hr]; rfl

theorem treePairs_nil : treePairs [] = [] := rfl

theorem treePairs_cons (q : String × List (String × Value)) (t : Tree) :
    treePairs (q :: t) =
      q.2.map (fun r => (q.1, r.1)) ++ treePairs t := by
  simp [treePairs]

theorem treePairs_fst_mem (t : Tree) :
    ∀ pr ∈ treePairs t, pr.1 ∈ t.map Prod.fst := by
  intro pr hpr
  simp only [treePairs, List.mem_flatMap, List.mem_map] at hpr
  obtain ⟨q, hq, r, _, e⟩ := hpr
  rw [← e]
  exact List.mem_map_of_mem Prod.fst hq

theorem mem_treePairs_iff (t : Tree) (h : TreeWF t) (p i : String) :
    (p, i) ∈ treePairs t ↔ ¬ tlookup t p i = none := by
  induction t with
  | nil => simp [treePairs_nil, tlookup_nil]
  | cons q t ih =>
    obtain ⟨hWFt, hqt⟩ := TreeWF_tail q t h
    rw [treePairs_cons, tlookup_cons, List.mem_append]
    by_cases hq : q.1 = p
    · rw [if_pos hq]
      have hnrest : ¬ (p, i) ∈ treePairs t := by
        intro hm
        have hfst := treePairs_fst_mem t (p, i) hm
        rw [← hq] at hfst
        exact hqt hfst
      constructor
      · rintro (hm | hm)
        · simp only [List.mem_map] at hm
          obtain ⟨r, hr, e⟩ := hm
          intro hnone
          have hkeys := (dlookup_eq_none_iff q.2 i).mp hnone
          have hmem : i ∈ q.2.map Prod.fst := by
            have e2 : r.1 = i := congrArg Prod.snd e
            rw [← e2]
            exact List.mem_map_of_mem Prod.fst hr
          exact hkeys hmem
        · exact absurd hm hnrest
      · intro hne
        left
        rcases ho : dlookup q.2 i with _ | v
        · exact absurd ho hne
        · have hm : (i, v) ∈ q.2 :=
            (dlookup_eq_some_iff_mem q.2 (h.2 q (by simp)) i v).mp ho
          exact List.mem_map.mpr ⟨(i, v), hm, by rw [hq]⟩
    · rw [if_neg hq]
      have hnq : ¬ (p, i) ∈ q.2.map (fun r => (q.1, r.1)) := by
        intro hm
        simp only [List.mem_map] at hm
        obtain ⟨r, _, e⟩ := hm
        exact hq (congrArg Prod.fst e)
      rw [ih hWFt]
      constructor
      · rintro (hm | hm)
        · exact absurd hm hnq
        · exact hm
      · exact fun hm => Or.inr hm

theorem inner_pairs_dremove (l : List (String × Value)) (p i : String) :
    (dremove l i).map (fun r => (p, r.1)) =
      (l.map (fun r => (p, r.1))).filter (fun pr => pr ≠ (p, i)) := by
  induction l with
  | nil => rfl
  | cons r l ih =>
    rw [dremove_cons]
    by_cases hr : r.1 = i
    · rw [if_pos hr, List.map_cons, List.filter_cons,
        if_neg (by simp [hr]), ih]
    · rw [if_neg hr, List.map_cons, List.map_cons, List.filter_cons,
        if_pos (by simp [hr]), ih]

theorem treePairs_tremove (t : Tree) (p i : String) (h : TreeWF t) :
    treePairs (tremove t p i) =
      (treePairs t).filter (fun pr => pr ≠ (p, i)) := by
  induction t with
  | nil => rfl
  | cons q t ih =>
    obtain ⟨hWFt, hqt⟩ := TreeWF_tail q t h
    by_cases hq : q.1 = p
    · rw [tremove, if_pos hq, treePairs_cons, treePairs_cons,
        List.filter_append]
      have h1 : (dremove q.2 i).map (fun r => (q.1, r.1)) =
          (q.2.map (fun r => (q.1, r.1))).filter (fun pr => pr ≠ (p, i)) := by
        rw [hq, inner_pairs_dremove]
      have h2 : (treePairs t).filter (fun pr => pr ≠ (p, i)) = treePairs t := by
        apply List.filter_eq_self.mpr
        intro pr hpr
        have hfst := treePairs_fst_mem t pr hpr
        simp only [decide_eq_true_eq]
        intro e
        have : p ∈ t.map Prod.fst := by rw [e] at hfst; exact hfst
        rw [← hq] at this
        exact hqt this
      rw [h1, h2]
    · rw [tremove, if_neg hq, treePairs_cons, treePairs_cons,
        List.filter_append, ih hWFt]
      have h1 : (q.2.map (fun r => (q.1, r.1))).filter (fun pr => pr ≠ (p, i)) =
          q.2.map (fun r => (q.1, r.1)) := by
        apply List.filter_eq_self.mpr
        intro pr hpr
        simp only [List.mem_map] at hpr
        obtain ⟨r, _, e⟩ := hpr
        simp only [decide_eq_true_eq]
        intro e2
        exact hq (by
          have := congrArg Prod.fst (e.trans e2)
          simpa using this)
      rw [h1]

theorem treePairs_tpop (t : Tree) (p i : String) (h : TreeWF t) :
    treePairs (tpop t p i).2 =
      (treePairs t).filter (fun pr => pr ≠ (p, i)) := by
  cases hl : tlookup t p i with
  | some v => simp only [tpop, hl]; exact treePairs_tremove t p i h
  | none =>
    simp only [tpop, hl]
    symm
    apply List.filter_eq_self.mpr
    intro pr hpr
    simp only [decide_eq_true_eq]
    intro e
    rw [e] at hpr
    exact ((mem_treePairs_iff t h p i).mp hpr) hl

theorem hcp_params_eq (inst : InstanceData) :
    ∀ (ps : List Parameter)
      (acc : Tree × List (String × Value) × List (String × String)),
      http_consume_params inst ps acc =
        http_consume_pairs (ps.map (fun p => (inst, p))) acc := by
  intro ps
  induction ps with
  | nil => intro acc; rfl
  | cons p ps ih =>
    intro acc
    rcases acc with ⟨t, m, miss⟩
    rcases hE : tpop t p.name inst.name with ⟨ov, t'⟩
    cases ov <;>
      simp [http_consume_params, http_consume_pairs, hE, ih]

theorem http_consume_pairs_append :
    ∀ (a b : List (InstanceData × Parameter))
      (acc : Tree × List (String × Value) × List (String × String)),
      http_consume_pairs (a ++ b) acc =
        http_consume_pairs b (http_consume_pairs a acc) := by
  intro a
  induction a with
  | nil => intro b acc; rfl
  | cons ip a ih =>
    intro b acc
    rcases acc with ⟨t, m, miss⟩
    rcases hE : tpop t ip.2.name ip.1.name with ⟨ov, t'⟩
    cases ov <;>
      simp [http_consume_pairs, hE, ih]

theorem http_consume_eq (insts : List InstanceData) :
    ∀ (acc : Tree × List (String × Value) × List (String × String)),
      http_consume insts acc =
        http_consume_pairs
          (insts.flatMap (fun i => i.group.parameters.map (fun p => (i, p))))
          acc := by
  induction insts with
  | nil => intro acc; rfl
  | cons i insts ih =>
    intro acc
    rw [http_consume, ih, List.flatMap_cons, http_consume_pairs_append,
      hcp_params_eq]

theorem schemaIP_map_names (h : HostData) :
    (schemaIP h).map (fun ip => (ip.2.name, ip.1.name)) = schemaPairs h := by
  rw [schemaIP, schemaPairs, List.map_flatMap]
  apply List.flatMap_congr
  intro i _
  rw [List.map_map]
  rfl

theorem hcpp_nil (acc : Tree × List (String × Value) × List (String × String)) :
    http_consume_pairs [] acc = acc := rfl

theorem hcpp_cons_hit (ip : InstanceData × Parameter)
    (rest : List (InstanceData × Parameter)) (t : Tree)
    (m : List (String × Value)) (miss : List (String × String)) (v : Value)
    (hE : tlookup t ip.2.name ip.1.name = some v) :
    http_consume_pairs (ip :: rest) (t, m, miss) =
      http_consume_pairs rest (tremove t ip.2.name ip.1.name,
        dinsert m (compose_oid ip.1.group ip.2 ip.1) v, miss) := by
  simp [http_consume_pairs, tpop, hE]

theorem hcpp_cons_miss (ip : InstanceData × Parameter)
    (rest : List (InstanceData × Parameter)) (t : Tree)
    (m : List (String × Value)) (miss : List (String × String))
    (hE : tlookup t ip.2.name ip.1.name = none) :
    http_consume_pairs (ip :: rest) (t, m, miss) =
      http_consume_pairs rest (t, m, miss ++ [(ip.2.name, ip.1.name)]) := by
  simp [http_consume_pairs, tpop, hE]

theorem tremove_lookup_of_found (t : Tree) (p i : String) (v : Value)
    (hE : tlookup t p i = some v) (p' i' : String) :
    tlookup (tremove t p i) p' i' =
      if p' = p ∧ i' = i then none else tlookup t p' i' := by
  have := tpop_snd_lookup t p i p' i'
  simpa [tpop, hE] using this

theorem hcp_inv :
    ∀ (prs : List (InstanceData × Parameter)) (t : Tree)
      (m : List (String × Value)) (miss : List (String × String)),
      TreeWF t →
      (prs.map (fun ip => (ip.2.name, ip.1.name))).Nodup →
      (∀ p' i' : String,
        tlookup (http_consume_pairs prs (t, m, miss)).1 p' i' =
          if (p', i') ∈ prs.map (fun ip => (ip.2.name, ip.1.name)) then none
          else tlookup t p' i') ∧
      TreeWF (http_consume_pairs prs (t, m, miss)).1 ∧
      treePairs (http_consume_pairs prs (t, m, miss)).1 =
        (treePairs t).filter
          (fun pr => pr ∉ prs.map (fun ip => (ip.2.name, ip.1.name))) ∧
      (http_consume_pairs prs (t, m, miss)).2.2 =
        miss ++ (prs.map (fun ip => (ip.2.name, ip.1.name))).filter
          (fun pr => (tlookup t pr.1 pr.2).isNone) ∧
      (∀ (k : String) (v : Value),
        dlookup (http_consume_pairs prs (t, m, miss)).2.1 k = some v →
        dlookup m k = some v ∨
        ∃ ip ∈ prs, k = compose_oid ip.1.group ip.2 ip.1 ∧
          tlookup t ip.2.name ip.1.name = some v) := by
  intro prs
  induction prs with
  | nil =>
    intro t m miss hWF _
    refine ⟨?_, hWF, ?_, ?_, ?_⟩
    · intro p' i'
      simp [hcpp_nil]
    · rw [hcpp_nil]
      symm
      apply List.filter_eq_self.mpr
      intro pr _
      simp
    · simp [hcpp_nil]
    · intro k v hk
      exact Or.inl hk
  | cons ip rest ih =>
    intro t m miss hWF hnd
    rw [List.map_cons, List.nodup_cons] at hnd
    obtain ⟨hhead, hrest⟩ := hnd
    cases hE : tlookup t ip.2.name ip.1.name with
    | some v₀ =>
      rw [hcpp_cons_hit ip rest t m miss v₀ hE]
      have hWF₁ : TreeWF (tremove t ip.2.name ip.1.name) :=
        tremove_WF t _ _ hWF
      have hlk₁ := tremove_lookup_of_found t ip.2.name ip.1.name v₀ hE
      have hpr₁ : treePairs (tremove t ip.2.name ip.1.name) =
          (treePairs t).filter (fun pr => pr ≠ (ip.2.name, ip.1.name)) :=
        treePairs_tremove t _ _ hWF
      obtain ⟨ih1, ih2, ih3, ih4, ih5⟩ :=
        ih (tremove t ip.2.name ip.1.name)
          (dinsert m (compose_oid ip.1.group ip.2 ip.1) v₀) miss hWF₁ hrest
      refine ⟨?_, ih2, ?_, ?_, ?_⟩
      · intro p' i'
        rw [ih1 p' i']
        by_cases hm : (p', i') ∈
            rest.map (fun ip => (ip.2.name, ip.1.name))
        · rw [if_pos hm, if_pos (by simp [hm])]
        · rw [if_neg hm, hlk₁ p' i']
          by_cases he : (p', i') = (ip.2.name, ip.1.name)
          · rw [if_pos (by simpa [Prod.mk.injEq] using he),
              if_pos (by simp [he])]
          · rw [if_neg (by simpa [Prod.mk.injEq] using he),
              if_neg (by simp [he, hm])]
      · rw [ih3, hpr₁, List.filter_filter]
        apply List.filter_congr
        intro pr _
        by_cases h1 : pr = (ip.2.name, ip.1.name) <;>
          by_cases h2 : pr ∈ rest.map (fun ip => (ip.2.name, ip.1.name)) <;>
          simp [h1, h2]
      · rw [ih4, List.map_cons, List.filter_cons]
        rw [if_neg (by simp [hE])]
        congr 1
        apply List.filter_congr
        intro pr hpr
        have hne : pr ≠ (ip.2.name, ip.1.name) := by
          intro e
          rw [e] at hpr
          exact hhead hpr
        rw [hlk₁ pr.1 pr.2, if_neg (by
          intro hand
          exact hne (Prod.ext hand.1 hand.2))]
      · intro k v hkv
        rcases ih5 k v hkv with hl | ⟨ip', hip', hk, hlt⟩
        · rw [dlookup_dinsert] at hl
          by_cases hkk : k = compose_oid ip.1.group ip.2 ip.1
          · rw [if_pos hkk] at hl
            injection hl with hv
            exact Or.inr ⟨ip, by simp, hkk, by rw [hE, hv]⟩
          · rw [if_neg hkk] at hl
            exact Or.inl hl
        · rw [hlk₁ ip'.2.name ip'.1.name] at hlt
          by_cases hc : ip'.2.name = ip.2.name ∧ ip'.1.name = ip.1.name
          · rw [if_pos hc] at hlt
            exact absurd hlt (by simp)
          · rw [if_neg hc] at hlt
            exact Or.inr ⟨ip', by simp [hip'], hk, hlt⟩
    | none =>
      rw [hcpp_cons_miss ip rest t m miss hE]
      obtain ⟨ih1, ih2, ih3, ih4, ih5⟩ :=
        ih t m (miss ++ [(ip.2.name, ip.1.name)]) hWF hrest
      refine ⟨?_, ih2, ?_, ?_, ?_⟩
      · intro p' i'
        rw [ih1 p' i']
        by_cases hm : (p', i') ∈
            rest.map (fun ip => (ip.2.name, ip.1.name))
        · rw [if_pos hm, if_pos (by simp [hm])]
        · rw [if_neg hm]
          by_cases he : (p', i') = (ip.2.name, ip.1.name)
          · rw [if_pos (by simp [he])]
            rw [show p' = ip.2.name from congrArg Prod.fst he,
              show i' = ip.1.name from congrArg Prod.snd he]
            exact hE
          · rw [if_neg (by simp [he, hm])]
      · rw [ih3]
        apply List.filter_congr
        intro pr hpr
        have hne : pr ≠ (ip.2.name, ip.1.name) := by
          intro e
          rw [e] at hpr
          exact (mem_treePairs_iff t hWF ip.2.name ip.1.name).mp hpr hE
        by_cases h2 : pr ∈ rest.map (fun ip => (ip.2.name, ip.1.name)) <;>
          simp [h2, hne]
      · rw [ih4, List.map_cons, List.filter_cons]
        rw [if_pos (by simp [hE])]
        rw [List.append_assoc]
        rfl
      · intro k v hkv
        rcases ih5 k v hkv with hl | ⟨ip', hip', hk, hlt⟩
        · exact Or.inl hl
        · exact Or.inr ⟨ip', by simp [hip'], hk, hlt⟩

theorem http_pack_fields (h : HostData)
    (samples : List (String × String × Value)) :
    (http_pack h samples).mapping =
      (http_consume h.instances (samples_tree samples, [], [])).2.1 ∧
    (http_pack h samples).missing =
      (http_consume h.instances (samples_tree samples, [], [])).2.2 ∧
    (http_pack h samples).unknown =
      treePairs (http_consume h.instances (samples_tree samples, [], [])).1 ∧
    ((http_pack h samples).missing ≠ [] →
      LogEntry.missingSamples (http_pack h samples).missing ∈
        (http_pack h samples).log) ∧
    ((http_pack h samples).unknown ≠ [] →
      LogEntry.unknownSamples (http_pack h samples).unknown ∈
        (http_pack h samples).log) := by
  rcases hE : http_consume h.instances (samples_tree samples, [], [])
    with ⟨t₁, mp, miss⟩
  simp only [http_pack, hE]
  refine ⟨by trivial, by trivial, by trivial, ?_, ?_⟩
  · intro hne
    by_cases hu : treePairs t₁ = [] <;> simp [hne, hu] at *
  · intro hne
    by_cases hm : miss = [] <;> simp [hne, hm] at *

/-! ### Identifier injectivity -/

@[simp] theorem dot_data : ("." : String).data = ['.'] := rfl

@[simp] theorem colon_data : (":" : String).data = [':'] := rfl

theorem string_data_inj {s₁ s₂ : String} (h : s₁.data = s₂.data) : s₁ = s₂ := by
  cases s₁; cases s₂
  exact congrArg String.mk h

theorem natRepr_no_dot (n : Nat) : '.' ∉ (natRepr n).data := by
  intro hm
  exact isDigit_ne_dot (natRepr_chars n '.' hm) rfl

theorem natRepr_no_colon (n : Nat) : ':' ∉ (natRepr n).data := by
  intro hm
  exact isDigit_ne_colon (natRepr_chars n ':' hm) rfl

theorem sep3_inj (d : Char) (g₁ g₂ x₁ x₂ y₁ y₂ : List Char)
    (hx₁ : d ∉ x₁) (hx₂ : d ∉ x₂) (hy₁ : d ∉ y₁) (hy₂ : d ∉ y₂)
    (he : (g₁ ++ d :: x₁) ++ d :: y₁ = (g₂ ++ d :: x₂) ++ d :: y₂) :
    g₁ = g₂ ∧ x₁ = x₂ ∧ y₁ = y₂ := by
  have h1 := sep_last d (g₁ ++ d :: x₁) y₁ (g₂ ++ d :: x₂) y₂ hy₁ hy₂ he
  have h2 := sep_last d g₁ x₁ g₂ x₂ hx₁ hx₂ h1.1
  exact ⟨h2.1, h2.2, h1.2⟩

theorem dotted_inj (g₁ g₂ : String) (a₁ b₁ a₂ b₂ : Nat)
    (he : g₁ ++ "." ++ natRepr a₁ ++ "." ++ natRepr b₁ =
          g₂ ++ "." ++ natRepr a₂ ++ "." ++ natRepr b₂) :
    g₁ = g₂ ∧ a₁ = a₂ ∧ b₁ = b₂ := by
  have hd := congrArg String.data he
  simp only [string_data_append, dot_data, List.append_assoc,
    List.singleton_append, List.cons_append] at hd
  have hd' : (g₁.data ++ '.' :: (natRepr a₁).data) ++ '.' :: (natRepr b₁).data
      = (g₂.data ++ '.' :: (natRepr a₂).data) ++ '.' :: (natRepr b₂).data := by
    simpa [List.append_assoc] using hd
  have h3 := sep3_inj '.' _ _ _ _ _ _ (natRepr_no_dot a₁) (natRepr_no_dot a₂)
    (natRepr_no_dot b₁) (natRepr_no_dot b₂) hd'
  exact ⟨string_data_inj h3.1, natRepr_inj (string_data_inj h3.2.1),
    natRepr_inj (string_data_inj h3.2.2)⟩

theorem noColon_not_mem {s : String} (h : NoColon s) : ':' ∉ s.data :=
  fun hm => h ':' hm rfl

theorem name_inj (g₁ g₂ pn₁ pn₂ in₁ in₂ : String)
    (hp₁ : NoColon pn₁) (hp₂ : NoColon pn₂) (hi₁ : NoColon in₁)
    (hi₂ : NoColon in₂)
    (he : g₁ ++ ":" ++ pn₁ ++ ":" ++ in₁ = g₂ ++ ":" ++ pn₂ ++ ":" ++ in₂) :
    g₁ = g₂ ∧ pn₁ = pn₂ ∧ in₁ = in₂ := by
  have hd := congrArg String.data he
  simp only [string_data_append, colon_data, List.append_assoc,
    List.singleton_append, List.cons_append] at hd
  have hd' : (g₁.data ++ ':' :: pn₁.data) ++ ':' :: in₁.data
      = (g₂.data ++ ':' :: pn₂.data) ++ ':' :: in₂.data := by
    simpa [List.append_assoc] using hd
  have h3 := sep3_inj ':' _ _ _ _ _ _ (noColon_not_mem hp₁)
    (noColon_not_mem hp₂) (noColon_not_mem hi₁) (noColon_not_mem hi₂) hd'
  exact ⟨string_data_inj h3.1, string_data_inj h3.2.1,
    string_data_inj h3.2.2⟩

theorem dotted_no_colon (g : String) (a b : Nat) (hg : OidChars g) :
    ':' ∉ (g ++ "." ++ natRepr a ++ "." ++ natRepr b).data := by
  intro hm
  simp only [string_data_append, dot_data, List.mem_append,
    List.mem_singleton] at hm
  rcases hm with ((hm | hm) | hm) | hm
  · rcases hm with hm | hm
    · rcases hg ':' hm with hd | hd
      · exact isDigit_ne_colon hd rfl
      · exact absurd hd (by decide)
    · exact absurd hm (by decide)
  · exact natRepr_no_colon a hm
  · exact absurd hm (by decide)
  · exact natRepr_no_colon b hm

theorem name_has_colon (g pn i : String) :
    ':' ∈ (g ++ ":" ++ pn ++ ":" ++ i).data := by
  simp [string_data_append, colon_data]

theorem compose_oid_inj (h : HostData) (hwf : InjSchemaWF h)
    (i₁ : InstanceData) (hi₁ : i₁ ∈ h.instances)
    (p₁ : Parameter) (hp₁ : p₁ ∈ i₁.group.parameters)
    (i₂ : InstanceData) (hi₂ : i₂ ∈ h.instances)
    (p₂ : Parameter) (hp₂ : p₂ ∈ i₂.group.parameters)
    (he : compose_oid i₁.group p₁ i₁ = compose_oid i₂.group p₂ i₂) :
    p₁ = p₂ ∧ i₁ = i₂ := by
  obtain ⟨H1, H2, H3, A1, A2, A3, A4, A5⟩ := hwf
  by_cases hg₁ : i₁.group.oid ≠ ""
  · by_cases hg₂ : i₂.group.oid ≠ ""
    · rw [compose_oid, if_pos hg₁, compose_oid, if_pos hg₂] at he
      obtain ⟨hgo, hao, hbo⟩ := dotted_inj _ _ _ _ _ _ he
      have hgeq : i₁.group = i₂.group := A1 i₁ hi₁ i₂ hi₂ hg₁ hgo
      have hp₂' : p₂ ∈ i₁.group.parameters := by rw [hgeq]; exact hp₂
      have hpe : p₁ = p₂ := A2 i₁ hi₁ p₁ hp₁ p₂ hp₂' hao
      exact ⟨hpe, H3 i₁ hi₁ i₂ hi₂ hgeq hbo⟩
    · rw [compose_oid, if_pos hg₁, compose_oid, if_neg hg₂] at he
      have hc := name_has_colon i₂.group.name p₂.name i₂.name
      rw [← he] at hc
      exact absurd hc (dotted_no_colon _ _ _ (A3 i₁ hi₁))
  · by_cases hg₂ : i₂.group.oid ≠ ""
    · rw [compose_oid, if_neg hg₁, compose_oid, if_pos hg₂] at he
      have hc := name_has_colon i₁.group.name p₁.name i₁.name
      rw [he] at hc
      exact absurd hc (dotted_no_colon _ _ _ (A3 i₂ hi₂))
    · rw [compose_oid, if_neg hg₁, compose_oid, if_neg hg₂] at he
      obtain ⟨hgn, hpn, hin⟩ := name_inj _ _ _ _ _ _
        ((A4 i₁ hi₁).2 p₁ hp₁) ((A4 i₂ hi₂).2 p₂ hp₂)
        (A4 i₁ hi₁).1 (A4 i₂ hi₂).1 he
      have hgeq := H1 i₁ hi₁ i₂ hi₂ hgn
      have hpe := (H2 i₁ hi₁ i₂ hi₂ p₁ hp₁ p₂ hp₂ hpn).1
      have hieq := A5 i₁ hi₁ i₂ hi₂ hgeq (not_not.mp hg₁) hin
      exact ⟨hpe, hieq⟩

/-! ### Claim theorems -/

/-- C1: for host `h1` with one scalar instance (empty name, ordinal 0) of
group `G` (structural id `1.2`, indexing integer `idx` suffix 1,
non-indexing float `cpu` suffix 2), reconciling the poll-origin mapping
`1.2.1.0 ↦ 7, 1.2.2.0 ↦ 3.5` produces exactly one point with measurement
`G`, tags `host = h1, idx = 7` and fields `cpu = 3.5`. -/
theorem c1_scenario_a :
    (add_samples [h1]
      (Samples.snmp [[("1.2.1.0", Value.i 7), ("1.2.2.0", Value.f (mkRat 7 2))]])
      "h1" 0).points =
    [ { measurement := "G", time := 0,
        fields := [("cpu", Value.f (mkRat 7 2))],
        tags := [("host", Value.s "h1"), ("idx", Value.i 7)] } ] := by decide

/-- C2: for every host and every raw-sample input of either origin, every
point built by reconciliation has a non-empty field set, and when no point
is built no write call is issued. -/
theorem c2_no_empty_fields (sch : List HostData) (samples : Samples)
    (n : String) (ts : Rat) :
    (∀ pt ∈ (add_samples sch samples n ts).points, pt.fields ≠ []) ∧
    ((add_samples sch samples n ts).points = [] →
      (add_samples sch samples n ts).writes = []) := by
  cases hfind : findHost sch n with
  | none =>
    rw [add_samples_not_found sch samples n ts hfind]
    exact ⟨fun pt hpt => absurd hpt (List.not_mem_nil pt), fun _ => rfl⟩
  | some h =>
    rw [add_samples_found sch samples n ts h hfind]
    constructor
    · intro pt hpt
      exact pack_loop_points_fields h _ _ _ _ pt hpt
    · intro hpts
      simp only at hpts ⊢
      rw [if_pos hpts]

/-- C2 witness: the Scenario A point indeed has a non-empty field set. -/
theorem c2_witness :
    ({ measurement := "G", time := 0,
       fields := [("cpu", Value.f (mkRat 7 2))],
       tags := [("host", Value.s "h1"), ("idx", Value.i 7)] } : Point).fields
      ≠ [] :=
  (c2_no_empty_fields [h1]
    (Samples.snmp [[("1.2.1.0", Value.i 7), ("1.2.2.0", Value.f (mkRat 7 2))]])
    "h1" 0).1
    { measurement := "G", time := 0,
      fields := [("cpu", Value.f (mkRat 7 2))],
      tags := [("host", Value.s "h1"), ("idx", Value.i 7)] }
    (by decide)

/-- C3 counterexample: on host `hAB` (two scalar groups, one shared
indexing parameter `idx`) the identifier `2.1.1.0` is present in the
mapping, is not in any leftover warning, yet contributes its tag value to
two emitted points — so "contributed to exactly one Point, or recorded
unmatched" fails as stated. -/
theorem c3_counterexample :
    ¬ DrainingCompleteClaim [hAB] hAB csAB "hAB" 0 := by
  intro hcl
  have := hcl "2.1.1.0" (by decide)
  rcases this with hone | hwarn
  · exact absurd hone (by decide)
  · exact absurd hwarn (by decide)

/-- C3 amended: after a poll-origin reconciliation, every identifier of the
initial mapping is either drained (exactly the identifiers the host's
schema composes are removed; drained values feed the global tags, an
instance's tags or fields, or are dropped on cast failure) or left in the
final mapping, and the leftover identifiers are reported in the
not-indexed-fields warning; no identifier is silently retained. -/
theorem c3_amended (sch : List HostData) (cs : List (List (String × Value)))
    (n : String) (ts : Rat) (h : HostData)
    (hfind : findHost sch n = some h) :
    (∀ k, dlookup (add_samples sch (Samples.snmp cs) n ts).mapping k =
      if k ∈ schemaOids h then none else dlookup (snmp_mapping cs) k) ∧
    (∀ k ∈ (snmp_mapping cs).map Prod.fst,
      k ∈ schemaOids h ∨
        k ∈ (add_samples sch (Samples.snmp cs) n ts).mapping.map Prod.fst) ∧
    ((add_samples sch (Samples.snmp cs) n ts).mapping ≠ [] →
      LogEntry.notIndexedFields
        ((add_samples sch (Samples.snmp cs) n ts).mapping.map Prod.fst) h.name
        ∈ (add_samples sch (Samples.snmp cs) n ts).log) := by
  rw [add_samples_found sch (Samples.snmp cs) n ts h hfind]
  simp only
  have hdrain := pack_loop_drains h (minuteBucket ts)
    (init_state h (Samples.snmp cs))
  have hinit : (init_state h (Samples.snmp cs)).mapping = snmp_mapping cs := rfl
  refine ⟨?_, ?_, ?_⟩
  · intro k
    rw [hdrain k, hinit]
  · intro k hk
    by_cases hks : k ∈ schemaOids h
    · exact Or.inl hks
    · right
      rw [← dlookup_isSome_iff] at hk ⊢
      rw [hdrain k, if_neg hks, hinit]
      exact hk
  · intro hne
    have hne' : (pack_loop h (minuteBucket ts) h.instances none
        (init_state h (Samples.snmp cs))).2.2.mapping.map Prod.fst ≠ [] := by
      intro e
      exact hne (List.map_eq_nil_iff.mp e)
    rw [if_neg hne']
    exact List.mem_append.mpr (Or.inr (List.mem_singleton.mpr rfl))

/-- C3 witness: a concrete poll-origin run with one schema-matched and one
unmatched identifier, instantiating the amended drain characterization. -/
theorem c3_witness :
    dlookup (add_samples [h1]
        (Samples.snmp [[("1.2.2.0", Value.f (mkRat 7 2)), ("9.9.9.9", Value.i 1)]])
        "h1" 0).mapping "9.9.9.9" =
      (if "9.9.9.9" ∈ schemaOids h1 then none
       else dlookup (snmp_mapping
         [[("1.2.2.0", Value.f (mkRat 7 2)), ("9.9.9.9", Value.i 1)]]) "9.9.9.9") :=
  (c3_amended [h1] [[("1.2.2.0", Value.f (mkRat 7 2)), ("9.9.9.9", Value.i 1)]]
    "h1" 0 h1 (by decide)).1 "9.9.9.9"

/-- C4 counterexample: host `hC4` has two tabular instances of the same
group that share the name `x` (the store's uniqueness is on ordinals, not
names); the single supplied sample for `(temp, x)` is consumed by the first
instance and the second records `(temp, x)` as missing — so missing is not
exactly the set of schema pairs without a supplied value. -/
theorem c4_counterexample :
    ¬ (∀ pr, pr ∈ (http_pack hC4 sC4).missing ↔
        pr ∈ schemaPairs hC4 ∧
          tlookup (samples_tree sC4) pr.1 pr.2 = none) := by
  intro hcl
  have hm := (hcl ("temp", "x")).mp (by decide)
  exact absurd hm.2 (by decide)

/-- C4 amended: provided the host's schema-defined (parameter name,
instance name) pairs are pairwise distinct, a push-origin submission is
grouped with last-write-wins, exactly the schema pairs with no supplied
value are recorded as missing (and logged as an error when non-empty),
exactly the grouped supplied entries matching no schema pair are recorded
as unknown (and logged as a warning when non-empty), and every entry of the
identifier mapping stems from a schema pair's supplied value. -/
theorem c4_amended (h : HostData) (samples : List (String × String × Value))
    (hdis : (schemaPairs h).Nodup) :
    (http_pack h samples).missing =
      (schemaPairs h).filter
        (fun pr => (tlookup (samples_tree samples) pr.1 pr.2).isNone) ∧
    (http_pack h samples).unknown =
      (treePairs (samples_tree samples)).filter
        (fun pr => pr ∉ schemaPairs h) ∧
    (∀ (k : String) (v : Value),
      dlookup (http_pack h samples).mapping k = some v →
      ∃ i ∈ h.instances, ∃ p ∈ i.group.parameters,
        k = compose_oid i.group p i ∧
        tlookup (samples_tree samples) p.name i.name = some v) ∧
    ((http_pack h samples).missing ≠ [] →
      LogEntry.missingSamples (http_pack h samples).missing ∈
        (http_pack h samples).log) ∧
    ((http_pack h samples).unknown ≠ [] →
      LogEntry.unknownSamples (http_pack h samples).unknown ∈
        (http_pack h samples).log) := by
  obtain ⟨hmap, hmiss, hunk, hlog1, hlog2⟩ := http_pack_fields h samples
  have hnd : ((schemaIP h).map (fun ip => (ip.2.name, ip.1.name))).Nodup := by
    rw [schemaIP_map_names]; exact hdis
  obtain ⟨inv1, inv2, inv3, inv4, inv5⟩ :=
    hcp_inv (schemaIP h) (samples_tree samples) [] []
      (samples_tree_WF samples) hnd
  have hconsume : http_consume h.instances (samples_tree samples, [], []) =
      http_consume_pairs (schemaIP h) (samples_tree samples, [], []) := by
    rw [http_consume_eq]; rfl
  refine ⟨?_, ?_, ?_, hlog1, hlog2⟩
  · rw [hmiss, hconsume, inv4, schemaIP_map_names]
    rfl
  · rw [hunk, hconsume, inv3, schemaIP_map_names]
  · intro k v hkv
    rw [hmap, hconsume] at hkv
    rcases inv5 k v hkv with hl | ⟨ip, hip, hk, hlt⟩
    · exact absurd hl (by simp)
    · rw [schemaIP, List.mem_flatMap] at hip
      obtain ⟨i, hi, hmem⟩ := hip
      rw [List.mem_map] at hmem
      obtain ⟨p, hp, he⟩ := hmem
      refine ⟨i, hi, p, hp, ?_, ?_⟩
      · rw [hk, ← he]
      · rw [← he] at hlt
        exact hlt

/-- C4 witness: Scenario B and C in one concrete submission against `h1`:
an unknown pair is reported and excluded, and the missing characterization
holds. -/
theorem c4_witness :
    (http_pack h1 [("nosuch", "", Value.i 1)]).missing =
      (schemaPairs h1).filter
        (fun pr =>
          (tlookup (samples_tree [("nosuch", "", Value.i 1)]) pr.1 pr.2).isNone) ∧
    (http_pack h1 [("nosuch", "", Value.i 1)]).unknown =
      (treePairs (samples_tree [("nosuch", "", Value.i 1)])).filter
        (fun pr => pr ∉ schemaPairs h1) :=
  ⟨(c4_amended h1 [("nosuch", "", Value.i 1)] (by decide)).1,
   (c4_amended h1 [("nosuch", "", Value.i 1)] (by decide)).2.1⟩

/-- C5 counterexample: the store enforces no uniqueness on parameter
structural suffixes, so the valid configuration `gX` (distinct parameter
rows `a` and `b`, both with suffix 5) composes the same identifier for two
distinct (group, parameter, instance) triples. -/
theorem c5_counterexample :
    compose_oid gX pA iX = compose_oid gX pB iX ∧ pA ≠ pB ∧
      pA.name ≠ pB.name ∧ pA ∈ iX.group.parameters ∧
      pB ∈ iX.group.parameters ∧ iX ∈ hX.instances := by decide

/-- C5 amended: over one host's schema satisfying the store's uniqueness
constraints together with the amendments the counterexample forces
(distinct non-empty group structural identifiers with validator-shaped
characters, distinct parameter suffixes within a group, colon-free names,
and per-group distinct instance names where the name scheme is used),
`compose_oid` is injective: distinct (parameter, instance) triples of the
host never compose the same identifier. -/
theorem c5_amended (h : HostData) (hwf : InjSchemaWF h)
    (i₁ : InstanceData) (hi₁ : i₁ ∈ h.instances)
    (p₁ : Parameter) (hp₁ : p₁ ∈ i₁.group.parameters)
    (i₂ : InstanceData) (hi₂ : i₂ ∈ h.instances)
    (p₂ : Parameter) (hp₂ : p₂ ∈ i₂.group.parameters)
    (he : compose_oid i₁.group p₁ i₁ = compose_oid i₂.group p₂ i₂) :
    p₁ = p₂ ∧ i₁ = i₂ :=
  compose_oid_inj h hwf i₁ hi₁ p₁ hp₁ i₂ hi₂ p₂ hp₂ he

/-- C5 witness: the Scenario A schema satisfies the amended
well-formedness, and the injectivity theorem applies to it. -/
theorem c5_witness :
    ({ name := "idx", type := PType.integer, indexing := true, oid := 1 }
        : Parameter) =
      { name := "idx", type := PType.integer, indexing := true, oid := 1 } ∧
    ({ group := G1, oid := 0, name := "" } : InstanceData) =
      { group := G1, oid := 0, name := "" } :=
  c5_amended h1 (by decide)
    { group := G1, oid := 0, name := "" } (by decide)
    { name := "idx", type := PType.integer, indexing := true, oid := 1 }
    (by decide)
    { group := G1, oid := 0, name := "" } (by decide)
    { name := "idx", type := PType.integer, indexing := true, oid := 1 }
    (by decide) rfl

/-- C6: chunking partitions the identifier list in order — the chunks
concatenate back to the input, every chunk is at most
`SNMP_MAX_PARAMETERS_IN_QUERY` long, every chunk but possibly the last is
exactly that long, and 33 identifiers yield exactly the chunk sizes
32 and 1. -/
theorem c6_chunks (l : List String) :
    (chunks l).flatten = l ∧
    (∀ c ∈ chunks l, c.length ≤ SNMP_MAX_PARAMETERS_IN_QUERY) ∧
    (∀ (i : Nat) (hi : i + 1 < (chunks l).length),
      ((chunks l).get ⟨i, Nat.lt_of_succ_lt hi⟩).length =
        SNMP_MAX_PARAMETERS_IN_QUERY) ∧
    (chunks (List.replicate 33 "id")).map List.length = [32, 1] := by
  refine ⟨chunks_flatten l, chunks_length_le l, chunks_full l, by decide⟩

/-- C6 witness: on 33 identifiers, the first chunk is full and the chunks
concatenate back to the input. -/
theorem c6_witness :
    ((chunks (List.replicate 33 "id")).get
        ⟨0, Nat.lt_of_succ_lt (by decide)⟩).length =
      SNMP_MAX_PARAMETERS_IN_QUERY :=
  (c6_chunks (List.replicate 33 "id")).2.2.1 0 (by decide)

/-- C7: a cast failure is recovered locally — the failing sample is popped
and dropped, an error carrying the value, the declared type's caster name
and the value's actual type name is logged, and processing of the remaining
parameters continues from that state unchanged; concretely (Scenario D),
`"abc"` for the integer parameter of `hD` still yields the instance's point
with only the `cpu` field, and the cast error appears in the log. -/
theorem c7_cast_failure :
    (∀ (inst : InstanceData) (ix : Bool) (p : Parameter)
      (ps : List Parameter) (st : PackState) (v : Value),
      dlookup st.mapping (compose_oid inst.group p inst) = some v →
      p.indexing = ix → cast_value p.type v = none →
      values_for_params inst ix (p :: ps) st =
        values_for_params inst ix ps
          { mapping := dremove st.mapping (compose_oid inst.group p inst),
            log := st.log ++
              [LogEntry.castError v (casterName p.type) (typeName v)] }) ∧
    (add_samples [hD]
      (Samples.snmp [[("1.3.1.0", Value.s "abc"), ("1.3.2.0", Value.f (mkRat 7 2))]])
      "hD" 0).points = [ptD] ∧
    LogEntry.castError (Value.s "abc") "int" "str" ∈
      (add_samples [hD]
        (Samples.snmp [[("1.3.1.0", Value.s "abc"), ("1.3.2.0", Value.f (mkRat 7 2))]])
        "hD" 0).log := by
  refine ⟨?_, by decide, by decide⟩
  intro inst ix p ps st v h1 h2 h3
  exact vfp_cons_castfail inst ix p ps st v h1 h2 h3

/-- C7 witness: the locality equation instantiated at Scenario D's failing
parameter and state. -/
theorem c7_witness :
    values_for_params { group := GD, oid := 0, name := "" } false
      [{ name := "x", type := PType.integer, indexing := false, oid := 1 }]
      { mapping := [("1.3.1.0", Value.s "abc")], log := [] } =
    values_for_params { group := GD, oid := 0, name := "" } false []
      { mapping := dremove [("1.3.1.0", Value.s "abc")]
          (compose_oid ({ group := GD, oid := 0, name := "" } : InstanceData).group
            { name := "x", type := PType.integer, indexing := false, oid := 1 }
            { group := GD, oid := 0, name := "" }),
        log := [] ++ [LogEntry.castError (Value.s "abc") "int" "str"] } :=
  c7_cast_failure.1 { group := GD, oid := 0, name := "" } false
    { name := "x", type := PType.integer, indexing := false, oid := 1 } []
    { mapping := [("1.3.1.0", Value.s "abc")], log := [] }
    (Value.s "abc") (by decide) (by decide) (by decide)

/-- C8: invoking reconciliation for a host name absent from the schema logs
an error and aborts the unit of work — no reconciliation, no points, no
writes, all samples discarded. -/
theorem c8_unknown_host (sch : List HostData) (samples : Samples)
    (n : String) (ts : Rat) (hfind : findHost sch n = none) :
    add_samples sch samples n ts =
      { points := [], writes := [], log := [LogEntry.hostNotFound n],
        mapping := [] } :=
  add_samples_not_found sch samples n ts hfind

/-- C8 witness: an empty schema knows no host `nohost`. -/
theorem c8_witness :
    add_samples [] (Samples.snmp [[("1.2.1.0", Value.i 7)]]) "nohost" 0 =
      { points := [], writes := [], log := [LogEntry.hostNotFound "nohost"],
        mapping := [] } :=
  c8_unknown_host [] (Samples.snmp [[("1.2.1.0", Value.i 7)]]) "nohost" 0 rfl

/-- C9 counterexample: two chunk sequences whose flattened samples are
permutations of one another (the same identifier reported twice with
different values) build different mappings — last write wins — and emit
different points, so the union is not order-independent as stated. -/
theorem c9_counterexample :
    List.Perm csA.flatten csB.flatten ∧
    dlookup (snmp_mapping csA) "1.4.1.0" ≠
      dlookup (snmp_mapping csB) "1.4.1.0" ∧
    (add_samples [h9] (Samples.snmp csA) "h9" 0).points ≠
      (add_samples [h9] (Samples.snmp csB) "h9" 0).points := by decide

/-- C9 amended: when no identifier occurs twice among the chunk results,
permuting the chunks (and the pairs within them) leaves the built mapping
extensionally unchanged and the emitted points and write batches
identical. -/
theorem c9_amended (sch : List HostData) (n : String) (ts : Rat)
    (c₁ c₂ : List (List (String × Value)))
    (hperm : c₁.flatten.Perm c₂.flatten)
    (hnd : (c₁.flatten.map Prod.fst).Nodup) :
    (∀ k, dlookup (snmp_mapping c₁) k = dlookup (snmp_mapping c₂) k) ∧
    (add_samples sch (Samples.snmp c₁) n ts).points =
      (add_samples sch (Samples.snmp c₂) n ts).points ∧
    (add_samples sch (Samples.snmp c₁) n ts).writes =
      (add_samples sch (Samples.snmp c₂) n ts).writes := by
  have hnd₂ : (c₂.flatten.map Prod.fst).Nodup :=
    ((hperm.map Prod.fst).nodup_iff).mp hnd
  have hmap : ∀ k, dlookup (snmp_mapping c₁) k = dlookup (snmp_mapping c₂) k := by
    intro k
    rw [snmp_mapping_lookup c₁ hnd k, snmp_mapping_lookup c₂ hnd₂ k]
    exact dlookup_perm _ _ hperm hnd k
  refine ⟨hmap, ?_⟩
  cases hfind : findHost sch n with
  | none =>
    rw [add_samples_not_found _ _ _ _ hfind, add_samples_not_found _ _ _ _ hfind]
    exact ⟨rfl, rfl⟩
  | some h =>
    rw [add_samples_found _ _ _ _ h hfind, add_samples_found _ _ _ _ h hfind]
    have hseq : StEq (init_state h (Samples.snmp c₁))
        (init_state h (Samples.snmp c₂)) := ⟨hmap, rfl⟩
    have hc := pack_loop_congr h (minuteBucket ts) h.instances none _ _ hseq
    simp only
    rw [hc.1]
    exact ⟨rfl, rfl⟩

/-- C9 witness: distinct identifiers in swapped chunks give the same
points. -/
theorem c9_witness :
    (add_samples [h9] (Samples.snmp csW₁) "h9" 0).points =
      (add_samples [h9] (Samples.snmp csW₂) "h9" 0).points :=
  (c9_amended [h9] "h9" 0 csW₁ csW₂ (by decide) (by decide)).2.1

/-- C10: global-tag precedence is fixed by write order — host TagValues,
then the implicit `host = host.name` tag, then the cast values drained from
scalar-group indexing parameters; hence when the drained scalar pairs bind
`host` (last binding winning) the global `host` tag carries that cast value
rather than the host's name, and otherwise it is the host's name regardless
of any TagValue keyed `host`. -/
theorem c10_host_tag_precedence (host : HostData) (st : PackState) :
    (∀ v, dlookup ((scalar_pairs host.instances st).1).reverse "host" = some v →
      dlookup (global_tags_compute host st).1 "host" = some v) ∧
    (dlookup ((scalar_pairs host.instances st).1).reverse "host" = none →
      dlookup (global_tags_compute host st).1 "host" =
        some (Value.s host.name)) := by
  constructor
  · intro v hv
    rw [global_tags_lookup, hv]
    exact optOr_some v _
  · intro hv
    rw [global_tags_lookup, hv]
    simp [dlookup_dinsert]

/-- C10 witness: on `hH` (TagValue `host = tagged`, scalar indexing
parameter named `host` with sample value 9) the global `host` tag is 9; and
with no sample present it is the host name, overriding the TagValue. -/
theorem c10_witness :
    dlookup (global_tags_compute hH
      { mapping := [("1.5.1.0", Value.i 9)], log := [] }).1 "host" =
      some (Value.i 9) ∧
    dlookup (global_tags_compute hH { mapping := [], log := [] }).1 "host" =
      some (Value.s "hH") :=
  ⟨(c10_host_tag_precedence hH
      { mapping := [("1.5.1.0", Value.i 9)], log := [] }).1
      (Value.i 9) (by decide),
   (c10_host_tag_precedence hH { mapping := [], log := [] }).2 (by decide)⟩


end Collector
